import Mathlib

/-!
Verification development for the real-time knowledge-graph server
(`servers/api`).  The Python modules relevant to the checked claims are
shallowly embedded below:

* `servers/api/graph_state.py`  — `GraphStateManager`
* `servers/api/websocket.py`    — `RealtimePipeline._extract_complete_sentences`
  and the NLP worker's buffer handling
* `servers/api/gcp/vertex_ai.py` — `PartialJSONParser` and
  `select_relevant_context`

Strings are embedded as `List Char`.  Python float similarity scores
(`(max_len - distance) / max_len` compared against the literals `0.7` and
`0.9`) are embedded as exact rationals; at the string lengths exercised by
this code the float and rational comparisons agree.  `uuid.uuid4()` is
embedded as a deterministic fresh-id supply threaded through the state
(`mk_uuid` below).  `re.\x77` ("word character") is embedded for ASCII
alphanumerics, the underscore and Hangul syllables, which covers every
label alphabet used in this development.
-/

namespace KG

/-- ASCII lowercase of a string, mirroring Python `str.lower()` on the
alphabets used here. -/
def lower_str (s : List Char) : List Char := s.map Char.toLower

/-- Python whitespace test used by `str.strip()`. -/
def is_space (c : Char) : Bool := c = ' ' || c = '\t' || c = '\n' || c = '\r'

/-- Python `str.strip()`: remove whitespace from both ends. -/
def strip (s : List Char) : List Char :=
  ((s.dropWhile is_space).reverse.dropWhile is_space).reverse

/-- A "word character" for the normalisation regexes of `graph_state.py`:
alphanumeric, underscore, or a Hangul syllable (U+AC00–U+D7A3). -/
def is_word_char (c : Char) : Bool :=
  c.isAlphanum || c = '_' || ('가' ≤ c && c ≤ '힣')

/-- `GraphStateManager._normalize_label`: lowercase, then drop every
non-word character. -/
def normalize_label (s : List Char) : List Char :=
  (lower_str s).filter is_word_char

/-- `GraphStateManager._normalize_relation`: lowercase, then replace every
non-word character with an underscore. -/
def normalize_relation (s : List Char) : List Char :=
  (lower_str s).map (fun c => if is_word_char c then c else '_')

/-- One inner row of the Levenshtein DP table of
`GraphStateManager._calculate_similarity`: given the previous row
(`pDiag :: pRest`, entries `dp[i-1][j-1..]`) and the value to the left
(`dp[i][j-1]`), produce entries `dp[i][j..]`. -/
def lev_row (c : Char) : List Char → List Nat → Nat → List Nat
  | t :: ts, pDiag :: pRest, left =>
      let pUp := pRest.headD 0
      let cur := if c = t then pDiag else Nat.min pUp (Nat.min left pDiag) + 1
      cur :: lev_row c ts pRest cur
  | _, _, _ => []

/-- All rows of the DP table, returning the final row. -/
def lev_rows (s2 : List Char) : List Char → List Nat → Nat → List Nat
  | [], prev, _ => prev
  | c :: cs, prev, i => lev_rows s2 cs (i :: lev_row c s2 prev i) (i + 1)

/-- Levenshtein edit distance, as computed by the DP table of
`GraphStateManager._calculate_similarity`. -/
def levenshtein (s1 s2 : List Char) : Nat :=
  (lev_rows s2 s1 (List.range (s2.length + 1)) 1).getLastD 0

/-- `GraphStateManager._calculate_similarity`:
`(max_len - distance) / max_len`, and `0.0` when either string is empty. -/
def calculate_similarity (s1 s2 : List Char) : ℚ :=
  if s1.isEmpty || s2.isEmpty then 0
  else
    let maxLen := Nat.max s1.length s2.length
    ((maxLen : ℚ) - levenshtein s1 s2) / maxLen

/-- Python substring test `needle in hay`. -/
def sub_str (needle : List Char) : List Char → Bool
  | [] => needle.isEmpty
  | h :: t => needle.isPrefixOf (h :: t) || sub_str needle t

/-- The threshold comparison `_calculate_similarity(s1, s2) > num/den`,
carried out in exact integer arithmetic (cross-multiplication) so that it
evaluates inside the kernel.  `similarity_gt_iff` below proves it equal to
the rational comparison. -/
def similarity_gt (s1 s2 : List Char) (num den : Nat) : Bool :=
  if s1.isEmpty || s2.isEmpty then false
  else
    let maxLen := Nat.max s1.length s2.length
    den * (maxLen - levenshtein s1 s2) > num * maxLen

theorem cross_mul_sim_iff (num den m d : Nat) (hden : 0 < den)
    (hm : 0 < m) :
    (den * (m - d) > num * m) ↔ ((m : ℚ) - d) / m > (num : ℚ) / den := by
  rw [gt_iff_lt, gt_iff_lt,
    div_lt_div_iff₀ (by exact_mod_cast hden) (by exact_mod_cast hm)]
  rcases le_or_lt d m with hdm | hdm
  · have hcast : ((m : ℚ) - (d : ℚ)) = ((m - d : Nat) : ℚ) := by
      push_cast [hdm]; ring
    rw [hcast]
    constructor
    · intro hlt
      have hnat : (num * m : Nat) < (den * (m - d) : Nat) := by omega
      calc ((num : ℚ)) * m = ((num * m : Nat) : ℚ) := by push_cast; ring
        _ < ((den * (m - d) : Nat) : ℚ) := by exact_mod_cast hnat
        _ = ((m - d : Nat) : ℚ) * den := by push_cast; ring
    · intro hlt
      have h2 : ((num * m : Nat) : ℚ) < ((den * (m - d) : Nat) : ℚ) := by
        push_cast
        calc ((num : ℚ)) * m < ((m - d : Nat) : ℚ) * den := hlt
          _ = (den : ℚ) * ((m - d : Nat) : ℚ) := by ring
      have := (Nat.cast_lt (α := ℚ)).mp h2
      omega
  · have hz : m - d = 0 := by omega
    rw [hz]
    constructor
    · intro hc; omega
    · intro hc
      exfalso
      have hneg : ((m : ℚ) - d) * den < 0 := by
        have h1 : (m : ℚ) < d := by exact_mod_cast hdm
        have hdpos : (0 : ℚ) < den := by exact_mod_cast hden
        nlinarith
      have hpos : (0 : ℚ) ≤ (num : ℚ) * m := by positivity
      linarith

theorem similarity_gt_iff (s1 s2 : List Char) (num den : Nat)
    (hden : 0 < den) :
    similarity_gt s1 s2 num den = true ↔
      calculate_similarity s1 s2 > (num : ℚ) / den := by
  unfold similarity_gt calculate_similarity
  by_cases h : (s1.isEmpty || s2.isEmpty) = true
  · simp only [h, if_true]
    have hnn : (0 : ℚ) ≤ (num : ℚ) / den := by positivity
    constructor
    · intro hc; simp at hc
    · intro hc; exact absurd hnn (not_le.mpr hc)
  · simp only [h, if_false, Bool.false_eq_true]
    have hne : ¬s1.isEmpty = true ∧ ¬s2.isEmpty = true := by
      simpa [Bool.or_eq_true] using h
    have hm : 0 < Nat.max s1.length s2.length := by
      rcases s1 with _ | ⟨c, t⟩
      · exact absurd rfl hne.1
      · simp [Nat.lt_of_lt_of_le (Nat.succ_pos t.length) (Nat.le_max_left _ _)]
    rw [decide_eq_true_eq]
    exact cross_mul_sim_iff num den _ _ hden hm

theorem similarity_gt_7_10 (a b : List Char) :
    similarity_gt a b 7 10 = true ↔ calculate_similarity a b > 7/10 := by
  rw [similarity_gt_iff a b 7 10 (by norm_num)]
  norm_num

theorem similarity_gt_9_10 (a b : List Char) :
    similarity_gt a b 9 10 = true ↔ calculate_similarity a b > 9/10 := by
  rw [similarity_gt_iff a b 9 10 (by norm_num)]
  norm_num

/-! ## Data model (`models.py`) -/

/-- `EntityType` enum of `models.py`. -/
inductive EntityType where
  | PERSON | ORGANIZATION | LOCATION | CONCEPT | EVENT | PRODUCT
  | TECHNOLOGY | DATE | METRIC | ACTION | UNKNOWN
deriving DecidableEq, Repr

/-- `GraphEntity` of `models.py`.  The optional `metadata` map is never
inspected or produced by the operations verified here and is omitted. -/
structure GraphEntity where
  id : List Char
  label : List Char
  type : EntityType
  createdAt : Nat
  updatedAt : Nat
deriving DecidableEq, Repr

/-- `GraphRelation` of `models.py`.  The optional `weight` is never set by
the graph manager and is omitted. -/
structure GraphRelation where
  id : List Char
  source : List Char
  target : List Char
  relation : List Char
  createdAt : Nat
deriving DecidableEq, Repr

/-- `GraphState` of `models.py`. -/
structure GraphState where
  version : Nat
  entities : List GraphEntity
  relations : List GraphRelation
  lastUpdated : Nat
deriving DecidableEq, Repr

/-- `GraphDelta` of `models.py`. -/
structure GraphDelta where
  addedEntities : List GraphEntity
  addedRelations : List GraphRelation
  updatedEntities : List GraphEntity
  removedEntityIds : List (List Char)
  removedRelationIds : List (List Char)
  fromVersion : Nat
  toVersion : Nat
deriving DecidableEq, Repr

/-- `ExtractedEntity` of `models.py`. -/
structure ExtractedEntity where
  id : List Char
  label : List Char
  type : EntityType
deriving DecidableEq, Repr

/-- `ExtractedRelation` of `models.py`. -/
structure ExtractedRelation where
  source : List Char
  target : List Char
  relation : List Char
deriving DecidableEq, Repr

/-- `ExtractionResult` of `models.py`. -/
structure ExtractionResult where
  entities : List ExtractedEntity
  relations : List ExtractedRelation
deriving DecidableEq, Repr

/-! ## `GraphStateManager` (`graph_state.py`) -/

/-- `GraphStateManager._find_similar_entity`: the five-rule similarity
cascade, with the early `return None` when the extracted label's
normalisation is empty. -/
def find_similar_entity (extracted : ExtractedEntity)
    (existing : List GraphEntity) : Option GraphEntity :=
  let nl := normalize_label extracted.label
  if nl.isEmpty then none
  else
    match existing.find? (fun e => normalize_label e.label == nl) with
    | some e => some e
    | none =>
    match existing.find? (fun e =>
        lower_str (strip e.label) == lower_str (strip extracted.label)) with
    | some e => some e
    | none =>
    match (if 3 ≤ nl.length then
        existing.find? (fun e =>
          let en := normalize_label e.label
          3 ≤ en.length && (sub_str en nl || sub_str nl en))
      else none) with
    | some e => some e
    | none =>
    match existing.find? (fun e =>
        e.type == extracted.type &&
        similarity_gt nl (normalize_label e.label) 7 10) with
    | some e => some e
    | none =>
        existing.find? (fun e =>
          similarity_gt nl (normalize_label e.label) 9 10)

/-- Fresh opaque id supply standing in for `uuid.uuid4()`. -/
def mk_uuid (n : Nat) : List Char := '#' :: Nat.toDigits 10 n

/-- Replace the first entity with the given id (the indexed in-place update
loop of `apply_extraction`). -/
def replace_first_entity (targetId : List Char) (upd : GraphEntity) :
    List GraphEntity → List GraphEntity
  | [] => []
  | e :: rest =>
      if e.id == targetId then upd :: rest
      else e :: replace_first_entity targetId upd rest

/-- Accumulator of the entity loop of `apply_extraction`. -/
structure EntAcc where
  ents : List GraphEntity
  idMap : List (List Char × List Char)
  added : List GraphEntity
  updated : List GraphEntity
  fresh : Nat
deriving Repr

/-- Python `dict.get(k, default)` over the id map (later insertions
shadow earlier ones). -/
def map_get (m : List (List Char × List Char)) (k : List Char) :
    Option (List Char) :=
  (m.find? (fun p => p.1 == k)).map (·.2)

/-- One iteration of the entity loop of `apply_extraction`. -/
def entity_step (now : Nat) (acc : EntAcc) (ex : ExtractedEntity) : EntAcc :=
  match find_similar_entity ex acc.ents with
  | some existing =>
      let acc1 := { acc with idMap := (ex.id, existing.id) :: acc.idMap }
      if existing.label.length < ex.label.length then
        let upd : GraphEntity :=
          ⟨existing.id, ex.label, existing.type, existing.createdAt, now⟩
        { acc1 with
          ents := replace_first_entity existing.id upd acc1.ents,
          updated := acc1.updated ++ [upd] }
      else acc1
  | none =>
      let nid := mk_uuid acc.fresh
      let newEnt : GraphEntity := ⟨nid, ex.label, ex.type, now, now⟩
      { ents := acc.ents ++ [newEnt],
        idMap := (ex.id, nid) :: acc.idMap,
        added := acc.added ++ [newEnt],
        updated := acc.updated,
        fresh := acc.fresh + 1 }

/-- The entity loop of `apply_extraction`. -/
def entities_pass (now : Nat) (acc : EntAcc) (l : List ExtractedEntity) :
    EntAcc :=
  l.foldl (entity_step now) acc

/-- Endpoint resolution of the relation loop: try the id map, then entity
ids, then normalised-label equality. -/
def resolve_endpoint (idMap : List (List Char × List Char))
    (ents : List GraphEntity) (s : List Char) : Option GraphEntity :=
  let sid := (map_get idMap s).getD s
  match ents.find? (fun e => e.id == sid) with
  | some e => some e
  | none => ents.find? (fun e => normalize_label e.label == normalize_label s)

/-- The per-existing-relation duplicate test of the relation loop. -/
def dup_with (sourceId targetId rel : List Char) (r : GraphRelation) : Bool :=
  (r.source == sourceId && r.target == targetId &&
    (normalize_relation r.relation == normalize_relation rel ||
     similarity_gt (normalize_relation r.relation)
       (normalize_relation rel) 7 10))
  ||
  (r.source == targetId && r.target == sourceId &&
    similarity_gt (normalize_relation r.relation)
      (normalize_relation rel) 7 10)

/-- The duplicate check of the relation loop (break on first hit). -/
def is_duplicate (rels : List GraphRelation)
    (sourceId targetId rel : List Char) : Bool :=
  rels.any (dup_with sourceId targetId rel)

/-- Accumulator of the relation loop of `apply_extraction`. -/
structure RelAcc where
  rels : List GraphRelation
  addedRels : List GraphRelation
  fresh : Nat
deriving Repr

/-- One iteration of the relation loop of `apply_extraction`. -/
def relation_step (now : Nat) (ents : List GraphEntity)
    (idMap : List (List Char × List Char)) (acc : RelAcc)
    (ex : ExtractedRelation) : RelAcc :=
  match resolve_endpoint idMap ents ex.source,
        resolve_endpoint idMap ents ex.target with
  | some se, some te =>
      if is_duplicate acc.rels se.id te.id ex.relation then acc
      else
        let newRel : GraphRelation :=
          ⟨mk_uuid acc.fresh, se.id, te.id, ex.relation, now⟩
        { rels := acc.rels ++ [newRel],
          addedRels := acc.addedRels ++ [newRel],
          fresh := acc.fresh + 1 }
  | _, _ => acc

/-- The relation loop of `apply_extraction`. -/
def relations_pass (now : Nat) (ents : List GraphEntity)
    (idMap : List (List Char × List Char)) (acc : RelAcc)
    (l : List ExtractedRelation) : RelAcc :=
  l.foldl (relation_step now ents idMap) acc

/-- Result of one `apply_extraction` call.  The Redis effects are recorded
as data: `savedToCache` (the unconditional `_save_state`) and
`snapshotSaved` (the every-10-versions snapshot key). -/
structure ApplyResult where
  delta : GraphDelta
  state : GraphState
  fresh : Nat
  savedToCache : Bool
  snapshotSaved : Bool
deriving Repr

/-- `GraphStateManager.apply_extraction`: entity loop, relation loop, then
the unconditional version bump, timestamp update and persistence.  `now` is
the millisecond clock reading and `fresh` the fresh-id supply. -/
def apply_extraction (now fresh : Nat) (st : GraphState)
    (extraction : ExtractionResult) : ApplyResult :=
  let ea := entities_pass now ⟨st.entities, [], [], [], fresh⟩ extraction.entities
  let ra := relations_pass now ea.ents ea.idMap
    ⟨st.relations, [], ea.fresh⟩ extraction.relations
  let newVersion := st.version + 1
  { delta := ⟨ea.added, ra.addedRels, ea.updated, [], [], st.version, newVersion⟩,
    state := ⟨newVersion, ea.ents, ra.rels, now⟩,
    fresh := ra.fresh,
    savedToCache := true,
    snapshotSaved := newVersion % 10 == 0 }

/-- `GraphStateManager._create_empty_state`. -/
def create_empty_state (now : Nat) : GraphState := ⟨0, [], [], now⟩

/-! ## Sentence carving (`websocket.py`, `RealtimePipeline`) -/

/-- Python `str.find`: index of the first occurrence of `needle` as a
substring, if any. -/
def find_sub (needle : List Char) : List Char → Option Nat
  | [] => if needle.isEmpty then some 0 else none
  | h :: t =>
      if needle.isPrefixOf (h :: t) then some 0
      else (find_sub needle t).map (· + 1)

/-- `RealtimePipeline._LANGUAGE_CODE_MAP` applied to a short code. -/
def language_code_map (l : List Char) : List Char :=
  if l == "cmn".toList || l == "yue".toList || l == "wuu".toList
  then "zh".toList else l

/-- `RealtimePipeline._normalize_language_code`: first dash-separated
component, lowercased, then the special Chinese mappings. -/
def normalize_language_code : Option (List Char) → Option (List Char)
  | none => none
  | some l => some (language_code_map (lower_str (l.takeWhile (· ≠ '-'))))

/-- Japanese terminator list of `_extract_complete_sentences`. -/
def ja_endings : List (List Char) :=
  (["。", "！", "？",
    "ます ", "です ", "ました ", "でした ",
    "ます", "です", "ました", "でした",
    "った ", "った", "だ ", "だ", "た ",
    "か ", "か", "ね ", "ね", "よ ", "よ",
    ". ", "! ", "? "] : List String).map String.toList

/-- Chinese terminator list of `_extract_complete_sentences`. -/
def zh_endings : List (List Char) :=
  (["。", "！", "？", "了 ", "了", "的 ", ". ", "! ", "? "] : List String).map
    String.toList

/-- English terminator list of `_extract_complete_sentences`. -/
def en_endings : List (List Char) :=
  ([". ", "! ", "? ", ".\n", "!\n", "?\n"] : List String).map String.toList

/-- Default (Korean / unknown-language) terminator list of
`_extract_complete_sentences`. -/
def default_endings : List (List Char) :=
  (["습니다.", "입니다.", "합니다.", "됩니다.", "있습니다.", "없습니다.",
    "니다.", "세요.", "까요?", "나요?", "네요.", "군요.", "거든요.",
    "다.", "요.", "죠.", "요?", "죠?",
    ". ", "! ", "? ", ".\n", "!\n", "?\n",
    "。", "！", "？"] : List String).map String.toList

/-- Terminator list chosen from the (raw) language code. -/
def endings_for (languageCode : Option (List Char)) : List (List Char) :=
  match normalize_language_code languageCode with
  | some l =>
      if l == "ja".toList then ja_endings
      else if l == "zh".toList then zh_endings
      else if l == "en".toList then en_endings
      else default_endings
  | none => default_endings

/-- The inner scan of `_extract_complete_sentences`: the earliest
terminator occurrence in `rem` (first-listed wins ties), accumulated over
the terminator list.  Every terminator in the tables above is non-empty;
the guard records that assumption. -/
def best_ending (rem : List Char) :
    List (List Char) → Option (Nat × List Char) → Option (Nat × List Char)
  | [], best => best
  | e :: es, best =>
      if e.isEmpty then best_ending rem es best
      else
        match find_sub e rem with
        | none => best_ending rem es best
        | some idx =>
            match best with
            | none => best_ending rem es (some (idx, e))
            | some (bi, _) =>
                if idx < bi then best_ending rem es (some (idx, e))
                else best_ending rem es best

theorem find_sub_bound {needle s : List Char} {i : Nat}
    (h : find_sub needle s = some i) (hne : needle ≠ []) :
    i + needle.length ≤ s.length := by
  induction s generalizing i with
  | nil =>
      simp only [find_sub, List.isEmpty_iff] at h
      split at h
      · exact absurd (by assumption) hne
      · exact absurd h (by simp)
  | cons h' t ih =>
      simp only [find_sub] at h
      split at h
      · obtain rfl : i = 0 := by simpa using h.symm
        have hp : needle <+: (h' :: t) := by
          rw [← List.isPrefixOf_iff_prefix]; assumption
        simpa using hp.length_le
      · obtain ⟨j, hj, rfl⟩ := Option.map_eq_some'.mp h
        have := ih hj
        simpa [Nat.succ_le_succ_iff, Nat.add_right_comm] using
          Nat.succ_le_succ this

/-- Any result of `best_ending` is a real, non-empty terminator occurrence
inside `rem`. -/
theorem best_ending_bound {rem : List Char} {endings : List (List Char)}
    {best : Option (Nat × List Char)} {i : Nat} {e : List Char}
    (hbest : ∀ j f, best = some (j, f) → f ≠ [] ∧ j + f.length ≤ rem.length)
    (h : best_ending rem endings best = some (i, e)) :
    e ≠ [] ∧ i + e.length ≤ rem.length := by
  induction endings generalizing best with
  | nil => exact hbest i e h
  | cons e' es ih =>
      simp only [best_ending] at h
      split at h
      · exact ih hbest h
      · split at h
        · exact ih hbest h
        · rename_i idx hfind
          have hne : e' ≠ [] := by
            intro hc; simp [hc, List.isEmpty_iff] at *
          have hb : idx + e'.length ≤ rem.length := find_sub_bound hfind hne
          split at h
          · exact ih (by rintro j f hjf; cases hjf; exact ⟨hne, hb⟩) h
          · split at h
            · exact ih (by rintro j f hjf; cases hjf; exact ⟨hne, hb⟩) h
            · exact ih hbest h

theorem length_dropWhile_le (p : Char → Bool) (s : List Char) :
    (s.dropWhile p).length ≤ s.length :=
  (List.dropWhile_suffix p).sublist.length_le

theorem strip_length_le (s : List Char) : (strip s).length ≤ s.length := by
  unfold strip
  calc ((s.dropWhile is_space).reverse.dropWhile is_space).reverse.length
      = ((s.dropWhile is_space).reverse.dropWhile is_space).length := by
        rw [List.length_reverse]
    _ ≤ (s.dropWhile is_space).reverse.length := length_dropWhile_le _ _
    _ = (s.dropWhile is_space).length := by rw [List.length_reverse]
    _ ≤ s.length := length_dropWhile_le _ _

/-- `RealtimePipeline._extract_complete_sentences`: repeatedly carve at
the earliest terminator; keep the carved sentence only when its stripped
length exceeds 3; always continue on the stripped remainder. -/
def extract_complete_sentences (endings : List (List Char))
    (text : List Char) : List (List Char × List Char) :=
  match hb : best_ending text endings none with
  | none => []
  | some (i, e) =>
      let sentence := strip (text.take (i + e.length))
      let rest := strip (text.drop (i + e.length))
      have hlt : rest.length < text.length := by
        have hbb := best_ending_bound (by simp) hb
        have h1 : 1 ≤ i + e.length := by
          have : e.length ≠ 0 := by
            simpa [List.length_eq_zero] using hbb.1
          omega
        have h2 : i + e.length ≤ text.length := hbb.2
        calc rest.length ≤ (text.drop (i + e.length)).length :=
              strip_length_le _
          _ = text.length - (i + e.length) := by simp
          _ < text.length := by omega
      (if 3 < sentence.length then [(sentence, rest)] else []) ++
        extract_complete_sentences endings rest
termination_by text.length

/-- The NLP worker's consumption of the carve result: each carved sentence
is emitted, and the rolling buffer is rebound to the `remaining` component
of each tuple in turn (so ends at the last one; unchanged when no sentence
was carved). -/
def nlp_consume (buffer : List Char)
    (sentences : List (List Char × List Char)) :
    List (List Char) × List Char :=
  (sentences.map (·.1), ((sentences.getLast?).map (·.2)).getD buffer)

/-- One buffer-append-and-carve round of the NLP worker loop: join the new
transcript with a space, strip, carve, emit, rebind the buffer. -/
def nlp_worker_round (languageCode : Option (List Char))
    (buffer newText : List Char) : List (List Char) × List Char :=
  let buf := strip (buffer ++ ' ' :: newText)
  nlp_consume buf (extract_complete_sentences (endings_for languageCode) buf)

/-! ## Streaming JSON parser (`gcp/vertex_ai.py`, `PartialJSONParser`)

The regexes of the source are embedded as deterministic scanners: each
pattern is matched at every position from the left (`scan_suffixes`), and
the bounded constructs (`[^"]+`, `[^\x7b\x7d]+`, `\s*`, non-greedy
`(.*?)\]`) are deterministic once a start position is fixed. -/

/-- The backtick character, spelled by code point. -/
def tick : Char := Char.ofNat 96

/-- Leftmost-position scan: apply the position matcher `f` to every
suffix of the input (i.e. at every start position), returning the first
hit — the semantics of `re.search`. -/
def scan_suffixes {α : Type} (f : List Char → Option α) : List Char → Option α
  | [] => f []
  | s@(_ :: t) =>
      match f s with
      | some x => some x
      | none => scan_suffixes f t

/-- After an optional run of whitespace, require an opening brace; the
capture runs from the brace to the end of the buffer. -/
def after_ws_brace (s : List Char) : Option (List Char) :=
  let t := s.dropWhile is_space
  match t with
  | '{' :: _ => some t
  | _ => none

/-- One position of the fenced-block regex of
`PartialJSONParser._extract_json_content`: three backticks, an optional
`json` tag (tried first, backtracking to the untagged branch), whitespace,
then the brace-to-end capture. -/
def fence_capture_at (s : List Char) : Option (List Char) :=
  if [tick, tick, tick].isPrefixOf s then
    let r := s.drop 3
    match (if "json".toList.isPrefixOf r then after_ws_brace (r.drop 4)
           else none) with
    | some c => some c
    | none => after_ws_brace r
  else none

/-- A position matching a bare opening brace (the fallback regex of
`_extract_json_content`); captures from the brace to the end. -/
def brace_capture_at (s : List Char) : Option (List Char) :=
  match s with
  | '{' :: _ => some s
  | _ => none

/-- `PartialJSONParser._extract_json_content`: prefer a fenced JSON block,
fall back to the first opening brace, else the empty capture. -/
def extract_json_content (buffer : List Char) : List Char :=
  match scan_suffixes fence_capture_at buffer with
  | some c => c
  | none =>
      match scan_suffixes brace_capture_at buffer with
      | some c => c
      | none => []

/-- Characters up to (excluding) the first occurrence of `c`; fails when
`c` is absent — the non-greedy capture before a required close bracket. -/
def take_until (c : Char) : List Char → Option (List Char)
  | [] => none
  | h :: t => if h = c then some [] else (take_until c t).map (h :: ·)

/-- One position of the array-header pattern: a quoted `key`, optional
whitespace, a colon, optional whitespace, an opening square bracket.
Returns the remainder after the bracket. -/
def key_array_at (key : List Char) (s : List Char) : Option (List Char) :=
  if ('"' :: key ++ ['"']).isPrefixOf s then
    let r := (s.drop (key.length + 2)).dropWhile is_space
    match r with
    | ':' :: r2 =>
        (match r2.dropWhile is_space with
         | '[' :: r4 => some r4
         | _ => none)
    | _ => none
  else none

/-- The two-regex array capture shared by `_try_parse_entities` and
`_try_parse_relations`: first the closed-array pattern (capture up to the
first close bracket), then the unterminated-array fallback (capture to
the end of the buffer). -/
def array_capture (key : List Char) (content : List Char) :
    Option (List Char) :=
  match scan_suffixes (fun s => (key_array_at key s).bind (take_until ']'))
      content with
  | some cap => some cap
  | none => scan_suffixes (key_array_at key) content

/-- `"([^"]+)"` at the head of the input: a non-empty quote-free value in
quotes.  Returns the value and the remainder after the closing quote. -/
def parse_quoted (s : List Char) : Option (List Char × List Char) :=
  match s with
  | '"' :: r =>
      if (r.takeWhile (· ≠ '"')).isEmpty then none
      else
        match r.drop (r.takeWhile (· ≠ '"')).length with
        | '"' :: rest => some (r.takeWhile (· ≠ '"'), rest)
        | _ => none
  | _ => none

/-- A literal at the head of the input; returns the remainder. -/
def expect_lit (lit : List Char) (s : List Char) : Option (List Char) :=
  if lit.isPrefixOf s then some (s.drop lit.length) else none

/-- A quoted field `"name" : "value"` (with optional whitespace around the
colon) at the head of the input. -/
def field_at (name : List Char) (s : List Char) :
    Option (List Char × List Char) :=
  match expect_lit ('"' :: name ++ ['"']) s with
  | none => none
  | some r =>
      match r.dropWhile is_space with
      | ':' :: r2 => parse_quoted (r2.dropWhile is_space)
      | _ => none

/-- `\s*,\s*` at the head of the input. -/
def expect_comma (s : List Char) : Option (List Char) :=
  match s.dropWhile is_space with
  | ',' :: u => some (u.dropWhile is_space)
  | _ => none

/-- `EntityType(entity_type)` after the `__members__` guard of
`_try_parse_entities`: unknown names collapse to `UNKNOWN`. -/
def entity_type_of_string (s : List Char) : EntityType :=
  if s = "PERSON".toList then .PERSON
  else if s = "ORGANIZATION".toList then .ORGANIZATION
  else if s = "LOCATION".toList then .LOCATION
  else if s = "CONCEPT".toList then .CONCEPT
  else if s = "EVENT".toList then .EVENT
  else if s = "PRODUCT".toList then .PRODUCT
  else if s = "TECHNOLOGY".toList then .TECHNOLOGY
  else if s = "DATE".toList then .DATE
  else if s = "METRIC".toList then .METRIC
  else if s = "ACTION".toList then .ACTION
  else .UNKNOWN

/-- One position of the entity-object pattern of `_try_parse_entities`:
a brace, then the fields `id`, `label`, `type` in exactly that order,
comma-separated, then a closing brace.  Returns the entity and the
remainder after the match. -/
def entity_obj_at (s : List Char) : Option (ExtractedEntity × List Char) :=
  match s with
  | '{' :: r =>
      match field_at "id".toList (r.dropWhile is_space) with
      | none => none
      | some (idv, r1) =>
      match expect_comma r1 with
      | none => none
      | some r2 =>
      match field_at "label".toList r2 with
      | none => none
      | some (lv, r3) =>
      match expect_comma r3 with
      | none => none
      | some r4 =>
      match field_at "type".toList r4 with
      | none => none
      | some (tv, r5) =>
      match r5.dropWhile is_space with
      | '}' :: rest => some (⟨idv, lv, entity_type_of_string tv⟩, rest)
      | _ => none
  | _ => none

theorem length_drop_le (n : Nat) (l : List Char) :
    (l.drop n).length ≤ l.length := by
  simp only [List.length_drop]; omega

theorem expect_lit_le {lit s r : List Char} (h : expect_lit lit s = some r) :
    r.length ≤ s.length := by
  unfold expect_lit at h
  split at h
  · cases h; exact length_drop_le _ _
  · cases h

theorem parse_quoted_lt {s v rest : List Char}
    (h : parse_quoted s = some (v, rest)) : rest.length < s.length := by
  unfold parse_quoted at h
  split at h
  · rename_i r
    split at h
    · simp at h
    · split at h
      · rename_i rest' heq
        simp only [Option.some.injEq, Prod.mk.injEq] at h
        obtain ⟨-, rfl⟩ := h
        have hlen : (r.drop (r.takeWhile (· ≠ '"')).length).length =
            rest'.length + 1 := by rw [heq]; simp
        have := length_drop_le (r.takeWhile (· ≠ '"')).length r
        simp only [List.length_cons]
        omega
      · simp at h
  · simp at h

theorem expect_comma_le {s r : List Char} (h : expect_comma s = some r) :
    r.length ≤ s.length := by
  unfold expect_comma at h
  split at h
  · rename_i u heq
    cases h
    have h1 : (s.dropWhile is_space).length ≤ s.length :=
      length_dropWhile_le _ _
    have h2 := length_dropWhile_le is_space u
    rw [heq] at h1
    simp only [List.length_cons] at h1
    omega
  · cases h

theorem field_at_lt {name s v rest : List Char}
    (h : field_at name s = some (v, rest)) : rest.length < s.length := by
  unfold field_at at h
  split at h
  · simp at h
  · rename_i r hr
    have hle : r.length ≤ s.length := expect_lit_le hr
    split at h
    · rename_i r2 heq
      have h3 : rest.length < (r2.dropWhile is_space).length :=
        parse_quoted_lt h
      have h4 : (r.dropWhile is_space).length ≤ r.length :=
        length_dropWhile_le _ _
      have h5 := length_dropWhile_le is_space r2
      rw [heq] at h4
      simp only [List.length_cons] at h4
      omega
    · simp at h

theorem entity_obj_at_lt {s : List Char} {e : ExtractedEntity}
    {rest : List Char} (h : entity_obj_at s = some (e, rest)) :
    rest.length < s.length := by
  unfold entity_obj_at at h
  split at h
  · rename_i r
    split at h
    · simp at h
    · rename_i idv r1 h1
      split at h
      · simp at h
      · rename_i r2 h2
        split at h
        · simp at h
        · rename_i lv r3 h3
          split at h
          · simp at h
          · rename_i r4 h4
            split at h
            · simp at h
            · rename_i tv r5 h5
              have l1 : r1.length < (r.dropWhile is_space).length :=
                field_at_lt h1
              have l0 : (r.dropWhile is_space).length ≤ r.length :=
                length_dropWhile_le _ _
              have l2 : r2.length ≤ r1.length := expect_comma_le h2
              have l3 : r3.length < r2.length := field_at_lt h3
              have l4 : r4.length ≤ r3.length := expect_comma_le h4
              have l5 : r5.length < r4.length := field_at_lt h5
              split at h
              · rename_i rest' heq
                simp only [Option.some.injEq, Prod.mk.injEq] at h
                obtain ⟨-, rfl⟩ := h
                have h6 := length_dropWhile_le is_space r5
                rw [heq] at h6
                simp only [List.length_cons] at h6 ⊢
                omega
              · simp at h
  · simp at h

/-- The scan loop of `re.finditer` for the entity-object pattern:
leftmost, non-overlapping matches.  Structural recursion on a step bound
(each step consumes at least one character, by `entity_obj_at_lt`), so the
function evaluates inside the kernel. -/
def find_entities_go (fuel : Nat) (s : List Char) : List ExtractedEntity :=
  match fuel with
  | 0 => []
  | fuel' + 1 =>
      match s with
      | [] => []
      | _ :: t =>
          match entity_obj_at s with
          | some (e, rest) => e :: find_entities_go fuel' rest
          | none => find_entities_go fuel' t

/-- `re.finditer` of the entity-object pattern over the captured array
text; `s.length` steps always suffice. -/
def find_entities (s : List Char) : List ExtractedEntity :=
  find_entities_go s.length s

/-- `PartialJSONParser._try_parse_entities`. -/
def try_parse_entities (content : List Char) : List ExtractedEntity :=
  match array_capture "entities".toList content with
  | none => []
  | some str => find_entities str

/-- One position of the relation-object pattern `\x7b[^\x7b\x7d]+\x7d`:
a brace, a non-empty brace-free body, a closing brace.  Returns the whole
match (the `group(0)` the field searches run over) and the remainder. -/
def rel_obj_at (s : List Char) : Option (List Char × List Char) :=
  match s with
  | '{' :: r =>
      if (r.takeWhile (fun c => c ≠ '{' && c ≠ '}')).isEmpty then none
      else
        match r.drop (r.takeWhile (fun c => c ≠ '{' && c ≠ '}')).length with
        | '}' :: rest =>
            some ('{' :: r.takeWhile (fun c => c ≠ '{' && c ≠ '}') ++ ['}'],
              rest)
        | _ => none
  | _ => none

theorem rel_obj_at_lt {s obj rest : List Char}
    (h : rel_obj_at s = some (obj, rest)) : rest.length < s.length := by
  unfold rel_obj_at at h
  split at h
  · rename_i r
    split at h
    · simp at h
    · split at h
      · rename_i rest' heq
        simp only [Option.some.injEq, Prod.mk.injEq] at h
        obtain ⟨-, rfl⟩ := h
        have h1 : (r.drop (r.takeWhile
            (fun c => c ≠ '{' && c ≠ '}')).length).length =
            rest'.length + 1 := by rw [heq]; simp
        have := length_drop_le
          (r.takeWhile (fun c => c ≠ '{' && c ≠ '}')).length r
        simp only [List.length_cons]
        omega
      · simp at h
  · simp at h

/-- The scan loop of `re.finditer` for the relation-object pattern
(structural on a step bound, justified by `rel_obj_at_lt`). -/
def find_rel_objs_go (fuel : Nat) (s : List Char) : List (List Char) :=
  match fuel with
  | 0 => []
  | fuel' + 1 =>
      match s with
      | [] => []
      | _ :: t =>
          match rel_obj_at s with
          | some (obj, rest) => obj :: find_rel_objs_go fuel' rest
          | none => find_rel_objs_go fuel' t

/-- `re.finditer` of the relation-object pattern: leftmost,
non-overlapping matches; `s.length` steps always suffice. -/
def find_rel_objs (s : List Char) : List (List Char) :=
  find_rel_objs_go s.length s

/-- The order-independent field extraction of `_try_parse_relations`:
search each of the three fields anywhere inside one matched object. -/
def parse_relation_obj (obj : List Char) : Option ExtractedRelation :=
  match scan_suffixes (field_at "source".toList) obj,
        scan_suffixes (field_at "target".toList) obj,
        scan_suffixes (field_at "relation".toList) obj with
  | some (s, _), some (t, _), some (r, _) => some ⟨s, t, r⟩
  | _, _, _ => none

/-- `PartialJSONParser._try_parse_relations`. -/
def try_parse_relations (content : List Char) : List ExtractedRelation :=
  match array_capture "relations".toList content with
  | none => []
  | some str => (find_rel_objs str).filterMap parse_relation_obj

/-- `PartialJSONParser` state: the append-only buffer, the accumulated
results, and the dedup sets (modelled as lists). -/
structure ParserState where
  buffer : List Char
  parsedEntities : List ExtractedEntity
  parsedRelations : List ExtractedRelation
  seenEntityIds : List (List Char)
  seenRelationKeys : List (List Char)
deriving Repr

/-- A fresh `PartialJSONParser()`. -/
def init_pstate : ParserState := ⟨[], [], [], [], []⟩

/-- The dedup key `f"{source}:{target}:{relation}"` of `feed`. -/
def rel_key (r : ExtractedRelation) : List Char :=
  r.source ++ ':' :: r.target ++ ':' :: r.relation

/-- The entity dedup loop of `feed`: keep only entities whose id has not
been seen; returns (seen ids, accumulated entities, newly returned). -/
def dedup_entities (seen : List (List Char)) (parsed newAcc : List ExtractedEntity) :
    List ExtractedEntity →
    List (List Char) × List ExtractedEntity × List ExtractedEntity
  | [] => (seen, parsed, newAcc)
  | e :: rest =>
      if seen.contains e.id then dedup_entities seen parsed newAcc rest
      else dedup_entities (seen ++ [e.id]) (parsed ++ [e]) (newAcc ++ [e]) rest

/-- The relation dedup loop of `feed`, keyed by `rel_key`. -/
def dedup_relations (seen : List (List Char)) (parsed newAcc : List ExtractedRelation) :
    List ExtractedRelation →
    List (List Char) × List ExtractedRelation × List ExtractedRelation
  | [] => (seen, parsed, newAcc)
  | r :: rest =>
      if seen.contains (rel_key r) then dedup_relations seen parsed newAcc rest
      else dedup_relations (seen ++ [rel_key r]) (parsed ++ [r])
        (newAcc ++ [r]) rest

/-- `PartialJSONParser.feed`: append the chunk, re-extract the JSON
region, parse and deduplicate; returns the new state and the newly
returned entities and relations. -/
def feed (st : ParserState) (chunk : List Char) :
    ParserState × List ExtractedEntity × List ExtractedRelation :=
  let buffer := st.buffer ++ chunk
  let content := extract_json_content buffer
  if content.isEmpty then ({ st with buffer := buffer }, [], [])
  else
    let de := dedup_entities st.seenEntityIds st.parsedEntities []
      (try_parse_entities content)
    let dr := dedup_relations st.seenRelationKeys st.parsedRelations []
      (try_parse_relations content)
    (⟨buffer, de.2.1, dr.2.1, de.1, dr.1⟩, de.2.2, dr.2.2)

/-- `PartialJSONParser.get_result`. -/
def get_result (st : ParserState) : ExtractionResult :=
  ⟨st.parsedEntities, st.parsedRelations⟩

/-- A sequence of `feed` calls, accumulating everything returned. -/
def run_feeds (st : ParserState) :
    List (List Char) →
    ParserState × List ExtractedEntity × List ExtractedRelation
  | [] => (st, [], [])
  | c :: cs =>
      let fr := feed st c
      let rr := run_feeds fr.1 cs
      (rr.1, fr.2.1 ++ rr.2.1, fr.2.2 ++ rr.2.2)

/-! ## Prompt context selection (`gcp/vertex_ai.py`,
`select_relevant_context`) -/

/-- The mention test of step 1 of `select_relevant_context` (the second
disjunct of the source is subsumed by the first and kept verbatim). -/
def label_matches (textLower : List Char) (e : GraphEntity) : Bool :=
  let ll := lower_str e.label
  sub_str ll textLower || (3 ≤ ll.length && sub_str ll textLower)

/-- Step 1 of `select_relevant_context`: entities mentioned in the text,
deduplicated by id, in entity order. -/
def mentioned_pass (textLower : List Char) (ents : List GraphEntity) :
    List GraphEntity × List (List Char) :=
  ents.foldl
    (fun acc e =>
      if label_matches textLower e && !acc.2.contains e.id
      then (acc.1 ++ [e], acc.2 ++ [e.id])
      else acc)
    ([], [])

/-- Stable descending insertion by `updatedAt` (the
`sorted(..., key=updated_at, reverse=True)` of step 2). -/
def insert_desc (e : GraphEntity) : List GraphEntity → List GraphEntity
  | [] => [e]
  | x :: xs =>
      if x.updatedAt ≤ e.updatedAt then e :: x :: xs
      else x :: insert_desc e xs

/-- Stable sort, most recently updated first. -/
def sort_desc_updated (l : List GraphEntity) : List GraphEntity :=
  l.foldr insert_desc []

/-- Step 3 of `select_relevant_context`: relations with at least one
endpoint among the selected ids, stopping once `maxRelations` are kept. -/
def relations_select (seen : List (List Char)) (maxRelations : Nat)
    (acc : List GraphRelation) : List GraphRelation → List GraphRelation
  | [] => acc
  | r :: rest =>
      if seen.contains r.source || seen.contains r.target then
        let acc2 := acc ++ [r]
        if maxRelations ≤ acc2.length then acc2
        else relations_select seen maxRelations acc2 rest
      else relations_select seen maxRelations acc rest

/-- `select_relevant_context` of `gcp/vertex_ai.py`. -/
def select_relevant_context (text : List Char)
    (entities : List GraphEntity) (relations : List GraphRelation)
    (maxEntities maxRelations : Nat) :
    List GraphEntity × List GraphRelation :=
  if entities.isEmpty then ([], [])
  else
    let textLower := lower_str text
    let mp := mentioned_pass textLower entities
    let filled :=
      if mp.1.length < maxEntities then
        let recent :=
          (sort_desc_updated
            (entities.filter (fun e => !mp.2.contains e.id))).take
            (maxEntities - mp.1.length)
        (mp.1 ++ recent, mp.2 ++ recent.map (·.id))
      else mp
    (filled.1, relations_select filled.2 maxRelations [] relations)

/-! ## The similarity cascade as the specification words it

For the refinement claim about `_find_similar_entity`, the cascade below
follows the specification's five rules literally: rule (a) is an exact
match on the normalised label with no separate guard for labels whose
normalisation is empty. -/

/-- The similarity search as specified: five rules in priority order,
first match wins, no empty-normalisation early return. -/
def find_similar_entity_spec (extracted : ExtractedEntity)
    (existing : List GraphEntity) : Option GraphEntity :=
  match existing.find? (fun e =>
      normalize_label e.label == normalize_label extracted.label) with
  | some e => some e
  | none =>
  match existing.find? (fun e =>
      lower_str (strip e.label) == lower_str (strip extracted.label)) with
  | some e => some e
  | none =>
  match (if 3 ≤ (normalize_label extracted.label).length then
      existing.find? (fun e =>
        let en := normalize_label e.label
        3 ≤ en.length &&
          (sub_str en (normalize_label extracted.label) ||
           sub_str (normalize_label extracted.label) en))
    else none) with
  | some e => some e
  | none =>
  match existing.find? (fun e =>
      e.type == extracted.type &&
      similarity_gt (normalize_label extracted.label)
        (normalize_label e.label) 7 10) with
  | some e => some e
  | none =>
      existing.find? (fun e =>
        similarity_gt (normalize_label extracted.label)
          (normalize_label e.label) 9 10)

/-! ## Claim C2: version bump, persistence and snapshot policy -/

/-- C2 (amended): `apply_extraction` increments the version by exactly 1,
refreshes the last-updated timestamp, and persists the graph on **every**
call — whether or not the delta is empty — and writes a snapshot key
exactly when the new version is a multiple of 10. -/
theorem C2_version_bump_unconditional (now fresh : Nat) (st : GraphState)
    (ext : ExtractionResult) :
    (apply_extraction now fresh st ext).state.version = st.version + 1 ∧
    (apply_extraction now fresh st ext).state.lastUpdated = now ∧
    (apply_extraction now fresh st ext).savedToCache = true ∧
    ((apply_extraction now fresh st ext).snapshotSaved = true ↔
      (st.version + 1) % 10 = 0) ∧
    (apply_extraction now fresh st ext).delta.fromVersion = st.version ∧
    (apply_extraction now fresh st ext).delta.toVersion = st.version + 1 := by
  unfold apply_extraction
  refine ⟨rfl, rfl, rfl, ?_, rfl, rfl⟩
  simp [beq_iff_eq]

/-- C2 counterexample: applying an empty extraction produces a delta with
no added entities, no updated entities and no added relations, yet the
version still increases from 0 to 1, the last-updated timestamp is rebound
and the graph is persisted — against the claim that a no-change call
leaves version, timestamp and cache copy unchanged. -/
theorem C2_empty_extraction_still_bumps_version :
    (apply_extraction 5 0 (create_empty_state 0) ⟨[], []⟩).delta.addedEntities
        = [] ∧
    (apply_extraction 5 0 (create_empty_state 0) ⟨[], []⟩).delta.updatedEntities
        = [] ∧
    (apply_extraction 5 0 (create_empty_state 0) ⟨[], []⟩).delta.addedRelations
        = [] ∧
    (apply_extraction 5 0 (create_empty_state 0) ⟨[], []⟩).state.version = 1 ∧
    (apply_extraction 5 0 (create_empty_state 0) ⟨[], []⟩).state.lastUpdated
        = 5 ∧
    (apply_extraction 5 0 (create_empty_state 0) ⟨[], []⟩).savedToCache
        = true := by
  decide

/-! ## Claim C5: the five-rule similarity cascade -/

/-- C5 (amended): whenever the extracted label's normalisation is
non-empty, `_find_similar_entity` is exactly the five-rule cascade the
specification describes (priority order, first match wins). -/
theorem C5_cascade_refines_spec (extracted : ExtractedEntity)
    (existing : List GraphEntity)
    (hne : normalize_label extracted.label ≠ []) :
    find_similar_entity extracted existing =
      find_similar_entity_spec extracted existing := by
  have h : (normalize_label extracted.label).isEmpty = false := by
    cases hcase : normalize_label extracted.label with
    | nil => exact absurd hcase hne
    | cons a l => rfl
  unfold find_similar_entity find_similar_entity_spec
  simp only [h, Bool.false_eq_true, if_false]

theorem C5_cascade_refines_spec_witness :
    find_similar_entity ⟨"e1".toList, "Kim".toList, .PERSON⟩ [] =
      find_similar_entity_spec ⟨"e1".toList, "Kim".toList, .PERSON⟩ [] :=
  C5_cascade_refines_spec _ _ (by decide)

/-- C5 counterexample: for the extracted label `"!"` (whose normalisation
is empty) against an existing entity with the identical label `"!"`, the
specified cascade matches by rule (a)/(b), but the code's
`_find_similar_entity` returns no match — and `apply_extraction`
consequently mints a fresh id and adds a duplicate entity. -/
theorem C5_empty_normalization_skips_cascade :
    find_similar_entity ⟨"e1".toList, "!".toList, .PERSON⟩
        [⟨"u1".toList, "!".toList, .PERSON, 0, 0⟩] = none ∧
    find_similar_entity_spec ⟨"e1".toList, "!".toList, .PERSON⟩
        [⟨"u1".toList, "!".toList, .PERSON, 0, 0⟩] =
      some ⟨"u1".toList, "!".toList, .PERSON, 0, 0⟩ ∧
    (apply_extraction 7 0 ⟨3, [⟨"u1".toList, "!".toList, .PERSON, 0, 0⟩], [], 0⟩
        ⟨[⟨"e1".toList, "!".toList, .PERSON⟩], []⟩).delta.addedEntities.length
      = 1 := by
  decide

/-! ## Claim C6: relation duplicate suppression -/

/-- C6: a resolved relation is classified a duplicate iff the current
relation list contains a relation between the same ordered pair whose
normalised phrase is equal or more than 0.7-similar, or between the
reversed pair with more than 0.7 similarity; and a resolved non-duplicate
is appended to the graph with a fresh opaque id. -/
theorem C6_duplicate_check_characterisation :
    (∀ (rels : List GraphRelation) (s t rel : List Char),
      (is_duplicate rels s t rel = true ↔
        ∃ r ∈ rels,
          (r.source = s ∧ r.target = t ∧
            (normalize_relation r.relation = normalize_relation rel ∨
             calculate_similarity (normalize_relation r.relation)
               (normalize_relation rel) > 7/10)) ∨
          (r.source = t ∧ r.target = s ∧
            calculate_similarity (normalize_relation r.relation)
              (normalize_relation rel) > 7/10)))
    ∧
    (∀ (now : Nat) (ents : List GraphEntity)
        (idMap : List (List Char × List Char)) (acc : RelAcc)
        (ex : ExtractedRelation) (se te : GraphEntity),
      resolve_endpoint idMap ents ex.source = some se →
      resolve_endpoint idMap ents ex.target = some te →
      is_duplicate acc.rels se.id te.id ex.relation = false →
      relation_step now ents idMap acc ex =
        { rels := acc.rels ++ [⟨mk_uuid acc.fresh, se.id, te.id,
            ex.relation, now⟩],
          addedRels := acc.addedRels ++ [⟨mk_uuid acc.fresh, se.id, te.id,
            ex.relation, now⟩],
          fresh := acc.fresh + 1 }) := by
  constructor

  · intro rels s t rel
    unfold is_duplicate
    rw [List.any_eq_true]
    constructor
    · rintro ⟨r, hr, hcond⟩
      refine ⟨r, hr, ?_⟩
      simpa [dup_with, Bool.and_eq_true, Bool.or_eq_true, beq_iff_eq,
        similarity_gt_7_10, and_assoc] using hcond
    · rintro ⟨r, hr, hcond⟩
      refine ⟨r, hr, ?_⟩
      simpa [dup_with, Bool.and_eq_true, Bool.or_eq_true, beq_iff_eq,
        similarity_gt_7_10, and_assoc] using hcond
  · intro now ents idMap acc ex se te hse hte hdup
    unfold relation_step
    rw [hse, hte]
    simp [hdup]

theorem C6_duplicate_check_characterisation_witness :
    relation_step 3
        [⟨"u1".toList, "a".toList, .PERSON, 0, 0⟩,
         ⟨"u2".toList, "b".toList, .PERSON, 0, 0⟩]
        [("e1".toList, "u1".toList), ("e2".toList, "u2".toList)]
        ⟨[], [], 0⟩ ⟨"e1".toList, "e2".toList, "works at".toList⟩ =
      { rels := [⟨mk_uuid 0, "u1".toList, "u2".toList,
          "works at".toList, 3⟩],
        addedRels := [⟨mk_uuid 0, "u1".toList, "u2".toList,
          "works at".toList, 3⟩],
        fresh := 1 } :=
  C6_duplicate_check_characterisation.2 3
    [⟨"u1".toList, "a".toList, .PERSON, 0, 0⟩,
     ⟨"u2".toList, "b".toList, .PERSON, 0, 0⟩]
    [("e1".toList, "u1".toList), ("e2".toList, "u2".toList)]
    ⟨[], [], 0⟩ ⟨"e1".toList, "e2".toList, "works at".toList⟩
    ⟨"u1".toList, "a".toList, .PERSON, 0, 0⟩
    ⟨"u2".toList, "b".toList, .PERSON, 0, 0⟩
    (by decide) (by decide) (by decide)

/-! ## Claim C1: the temp-id map across streaming applications -/

/-- C1 evidence: `GraphStateManager.apply_extraction` takes no id-map
argument and returns only a `GraphDelta`, so when the streamed entities of
one extraction are applied in a first call and the relations in a second
call (the worker's final relations pass), the second call starts from an
empty temp-id map: a relation whose endpoints are the LLM-local ids
`e1`/`e2` resolves to nothing and is silently dropped. -/
theorem C1_second_call_loses_temp_id_map :
    (apply_extraction 1 0 (create_empty_state 0)
      ⟨[⟨"e1".toList, "Kim Chulsoo".toList, .PERSON⟩,
        ⟨"e2".toList, "Samsung".toList, .ORGANIZATION⟩], []⟩).delta.addedEntities.length = 2 ∧
    (apply_extraction 2
      (apply_extraction 1 0 (create_empty_state 0)
        ⟨[⟨"e1".toList, "Kim Chulsoo".toList, .PERSON⟩,
          ⟨"e2".toList, "Samsung".toList, .ORGANIZATION⟩], []⟩).fresh
      (apply_extraction 1 0 (create_empty_state 0)
        ⟨[⟨"e1".toList, "Kim Chulsoo".toList, .PERSON⟩,
          ⟨"e2".toList, "Samsung".toList, .ORGANIZATION⟩], []⟩).state
      ⟨[], [⟨"e1".toList, "e2".toList, "works at".toList⟩]⟩).delta.addedRelations = [] ∧
    (apply_extraction 2
      (apply_extraction 1 0 (create_empty_state 0)
        ⟨[⟨"e1".toList, "Kim Chulsoo".toList, .PERSON⟩,
          ⟨"e2".toList, "Samsung".toList, .ORGANIZATION⟩], []⟩).fresh
      (apply_extraction 1 0 (create_empty_state 0)
        ⟨[⟨"e1".toList, "Kim Chulsoo".toList, .PERSON⟩,
          ⟨"e2".toList, "Samsung".toList, .ORGANIZATION⟩], []⟩).state
      ⟨[], [⟨"e1".toList, "e2".toList, "works at".toList⟩]⟩).state.relations = [] := by
  decide

/-! ## Claim C4: every relation's endpoints exist in the graph -/

/-- Both endpoints of every relation name an entity of the graph. -/
def endpoints_present (ents : List GraphEntity)
    (rels : List GraphRelation) : Prop :=
  ∀ r ∈ rels,
    (∃ e ∈ ents, e.id = r.source) ∧ (∃ e ∈ ents, e.id = r.target)

theorem replace_first_id_present {ents : List GraphEntity}
    {tid : List Char} {upd : GraphEntity} (hupd : upd.id = tid)
    {x : List Char} (hx : ∃ e ∈ ents, e.id = x) :
    ∃ e ∈ replace_first_entity tid upd ents, e.id = x := by
  induction ents with
  | nil => simp at hx
  | cons e rest ih =>
      obtain ⟨w, hw, hwx⟩ := hx
      unfold replace_first_entity
      by_cases he : (e.id == tid) = true
      · rw [if_pos he]
        rcases List.mem_cons.mp hw with rfl | hwr
        · exact ⟨upd, List.mem_cons_self _ _, by
            rw [hupd, ← beq_iff_eq.mp he, hwx]⟩
        · exact ⟨w, List.mem_cons_of_mem _ hwr, hwx⟩
      · rw [if_neg he]
        rcases List.mem_cons.mp hw with rfl | hwr
        · exact ⟨w, List.mem_cons_self _ _, hwx⟩
        · obtain ⟨w2, hw2, hw2x⟩ := ih ⟨w, hwr, hwx⟩
          exact ⟨w2, List.mem_cons_of_mem _ hw2, hw2x⟩

theorem entity_step_id_present (now : Nat) (acc : EntAcc)
    (ex : ExtractedEntity) {x : List Char}
    (hx : ∃ e ∈ acc.ents, e.id = x) :
    ∃ e ∈ (entity_step now acc ex).ents, e.id = x := by
  unfold entity_step
  split
  · rename_i existing hfound
    dsimp only
    split
    · dsimp only
      exact @replace_first_id_present acc.ents existing.id
        ⟨existing.id, ex.label, existing.type, existing.createdAt, now⟩
        rfl x hx
    · exact hx
  · obtain ⟨w, hw, hwx⟩ := hx
    exact ⟨w, List.mem_append_left _ hw, hwx⟩

theorem entities_pass_id_present (now : Nat)
    (l : List ExtractedEntity) (acc : EntAcc) {x : List Char}
    (hx : ∃ e ∈ acc.ents, e.id = x) :
    ∃ e ∈ (entities_pass now acc l).ents, e.id = x := by
  induction l generalizing acc with
  | nil => exact hx
  | cons ex rest ih =>
      exact ih (entity_step now acc ex) (entity_step_id_present now acc ex hx)

theorem resolve_endpoint_mem {idMap : List (List Char × List Char)}
    {ents : List GraphEntity} {s : List Char} {e : GraphEntity}
    (h : resolve_endpoint idMap ents s = some e) : e ∈ ents := by
  unfold resolve_endpoint at h
  dsimp only at h
  split at h
  · rename_i e' he'
    cases h
    exact List.mem_of_find?_eq_some he'
  · exact List.mem_of_find?_eq_some h

theorem relation_step_endpoints (now : Nat) (ents : List GraphEntity)
    (idMap : List (List Char × List Char)) (acc : RelAcc)
    (ex : ExtractedRelation)
    (hacc : ∀ r ∈ acc.rels,
      (∃ e ∈ ents, e.id = r.source) ∧ (∃ e ∈ ents, e.id = r.target)) :
    ∀ r ∈ (relation_step now ents idMap acc ex).rels,
      (∃ e ∈ ents, e.id = r.source) ∧ (∃ e ∈ ents, e.id = r.target) := by
  unfold relation_step
  split
  · rename_i se te hse hte
    split
    · exact hacc
    · intro r hr
      rcases List.mem_append.mp hr with hr1 | hr2
      · exact hacc r hr1
      · have : r = ⟨mk_uuid acc.fresh, se.id, te.id, ex.relation, now⟩ := by
          simpa using hr2
        subst this
        exact ⟨⟨se, resolve_endpoint_mem hse, rfl⟩,
          ⟨te, resolve_endpoint_mem hte, rfl⟩⟩
  · exact hacc

theorem relations_pass_endpoints (now : Nat) (ents : List GraphEntity)
    (idMap : List (List Char × List Char))
    (l : List ExtractedRelation) (acc : RelAcc)
    (hacc : ∀ r ∈ acc.rels,
      (∃ e ∈ ents, e.id = r.source) ∧ (∃ e ∈ ents, e.id = r.target)) :
    ∀ r ∈ (relations_pass now ents idMap acc l).rels,
      (∃ e ∈ ents, e.id = r.source) ∧ (∃ e ∈ ents, e.id = r.target) := by
  induction l generalizing acc with
  | nil => exact hacc
  | cons ex rest ih =>
      exact ih (relation_step now ents idMap acc ex)
        (relation_step_endpoints now ents idMap acc ex hacc)

/-- C4: if every relation of a session graph references existing entities,
then after `apply_extraction` every relation of the new graph — including
each newly inserted one, which is resolved through the id map and then by
normalised-label equality and is skipped when an endpoint stays
unresolved — still references entities present in the graph. -/
theorem C4_endpoints_present_invariant (now fresh : Nat) (st : GraphState)
    (ext : ExtractionResult)
    (h : endpoints_present st.entities st.relations) :
    endpoints_present (apply_extraction now fresh st ext).state.entities
      (apply_extraction now fresh st ext).state.relations := by
  unfold apply_extraction
  intro r hr
  dsimp only at hr ⊢
  refine relations_pass_endpoints now _ _ ext.relations _ ?_ r hr
  intro r0 hr0
  obtain ⟨hs, ht⟩ := h r0 hr0
  exact ⟨entities_pass_id_present now ext.entities _ hs,
    entities_pass_id_present now ext.entities _ ht⟩

theorem C4_endpoints_present_invariant_witness :
    endpoints_present
      (apply_extraction 1 0 (create_empty_state 0)
        ⟨[⟨"e1".toList, "Kim".toList, .PERSON⟩,
          ⟨"e2".toList, "Samsung Electronics".toList, .ORGANIZATION⟩],
         [⟨"e1".toList, "e2".toList, "works at".toList⟩]⟩).state.entities
      (apply_extraction 1 0 (create_empty_state 0)
        ⟨[⟨"e1".toList, "Kim".toList, .PERSON⟩,
          ⟨"e2".toList, "Samsung Electronics".toList, .ORGANIZATION⟩],
         [⟨"e1".toList, "e2".toList, "works at".toList⟩]⟩).state.relations :=
  C4_endpoints_present_invariant 1 0 (create_empty_state 0) _
    (by intro r hr; simp [create_empty_state] at hr)

/-! ## Claim C9: prompt-context selection bounds -/

theorem mentioned_fold_seen_eq (textLower : List Char)
    (ents : List GraphEntity) :
    ∀ acc : List GraphEntity × List (List Char),
      acc.2 = acc.1.map (·.id) →
      (ents.foldl
        (fun acc e =>
          if label_matches textLower e && !acc.2.contains e.id
          then (acc.1 ++ [e], acc.2 ++ [e.id])
          else acc) acc).2 =
      (ents.foldl
        (fun acc e =>
          if label_matches textLower e && !acc.2.contains e.id
          then (acc.1 ++ [e], acc.2 ++ [e.id])
          else acc) acc).1.map (·.id) := by
  induction ents with
  | nil => intro acc h; exact h
  | cons e rest ih =>
      intro acc h
      simp only [List.foldl_cons]
      apply ih
      split
      · simp [h]
      · exact h

theorem mentioned_pass_seen_eq (textLower : List Char)
    (ents : List GraphEntity) :
    (mentioned_pass textLower ents).2 =
      (mentioned_pass textLower ents).1.map (·.id) :=
  mentioned_fold_seen_eq textLower ents ([], []) rfl

theorem relations_select_length (seen : List (List Char)) (m : Nat)
    (l : List GraphRelation) (acc : List GraphRelation)
    (hacc : acc.length < m) :
    (relations_select seen m acc l).length ≤ m := by
  induction l generalizing acc with
  | nil => exact Nat.le_of_lt hacc
  | cons r rest ih =>
      unfold relations_select
      split
      · dsimp only
        split
        · rename_i hfull
          simpa using hacc
        · rename_i hfull
          exact ih (acc ++ [r]) (by simp at hfull ⊢; omega)
      · exact ih acc hacc

theorem relations_select_endpoints (seen : List (List Char)) (m : Nat)
    (l : List GraphRelation) (acc : List GraphRelation)
    (hacc : ∀ r ∈ acc,
      seen.contains r.source = true ∨ seen.contains r.target = true) :
    ∀ r ∈ relations_select seen m acc l,
      seen.contains r.source = true ∨ seen.contains r.target = true := by
  induction l generalizing acc with
  | nil => exact hacc
  | cons r rest ih =>
      unfold relations_select
      split
      · rename_i hkeep
        have hkeep' : ∀ x ∈ acc ++ [r],
            seen.contains x.source = true ∨ seen.contains x.target = true := by
          intro x hx
          rcases List.mem_append.mp hx with hx1 | hx2
          · exact hacc x hx1
          · have : x = r := by simpa using hx2
            subst this
            simpa [Bool.or_eq_true] using hkeep
        dsimp only
        split
        · exact hkeep'
        · exact ih (acc ++ [r]) hkeep'
      · exact ih acc hacc

theorem contains_map_id_iff (sel : List GraphEntity) (x : List Char) :
    ((sel.map (·.id)).contains x = true) ↔ ∃ e ∈ sel, e.id = x := by
  induction sel with
  | nil => simp
  | cons e rest ih =>
      simp only [List.map_cons, List.contains_cons, Bool.or_eq_true,
        beq_iff_eq, List.mem_cons]
      constructor
      · rintro (rfl | h)
        · exact ⟨e, Or.inl rfl, rfl⟩
        · obtain ⟨w, hw, hwx⟩ := ih.mp h
          exact ⟨w, Or.inr hw, hwx⟩
      · rintro ⟨w, (rfl | hw), hwx⟩
        · exact Or.inl hwx.symm
        · exact Or.inr (ih.mpr ⟨w, hw, hwx⟩)

/-- C9 (amended): the selected entity context is the text-mentioned
entities first, then — only when fewer than 8 were mentioned — the
most-recently-updated remaining entities up to a total of 8 (so the
8-entity cap holds only when at most 8 entities mention-match); and at
most 5 relations are kept, each with at least one endpoint among the
selected entities. -/
theorem C9_context_selection (text : List Char)
    (entities : List GraphEntity) (relations : List GraphRelation) :
    (select_relevant_context text entities relations 8 5).1 =
      (if (mentioned_pass (lower_str text) entities).1.length < 8 then
        (mentioned_pass (lower_str text) entities).1 ++
          (sort_desc_updated (entities.filter (fun e =>
            !(mentioned_pass (lower_str text) entities).2.contains e.id))).take
            (8 - (mentioned_pass (lower_str text) entities).1.length)
      else (mentioned_pass (lower_str text) entities).1) ∧
    ((mentioned_pass (lower_str text) entities).1.length ≤ 8 →
      (select_relevant_context text entities relations 8 5).1.length ≤ 8) ∧
    (select_relevant_context text entities relations 8 5).2.length ≤ 5 ∧
    (∀ r ∈ (select_relevant_context text entities relations 8 5).2,
      (∃ e ∈ (select_relevant_context text entities relations 8 5).1,
        e.id = r.source) ∨
      (∃ e ∈ (select_relevant_context text entities relations 8 5).1,
        e.id = r.target)) := by
  have hseen := mentioned_pass_seen_eq (lower_str text) entities
  by_cases hemp : entities.isEmpty = true
  · have hnil : entities = [] := by simpa [List.isEmpty_iff] using hemp
    subst hnil
    refine ⟨by simp [select_relevant_context, mentioned_pass,
      sort_desc_updated], ?_, ?_, ?_⟩
    · intro _; simp [select_relevant_context]
    · simp [select_relevant_context]
    · intro r hr; simp [select_relevant_context] at hr
  · have hsel :
        select_relevant_context text entities relations 8 5 =
          (let mp := mentioned_pass (lower_str text) entities
           let filled :=
             if mp.1.length < 8 then
               let recent :=
                 (sort_desc_updated (entities.filter (fun e =>
                   !mp.2.contains e.id))).take (8 - mp.1.length)
               (mp.1 ++ recent, mp.2 ++ recent.map (·.id))
             else mp
           (filled.1, relations_select filled.2 5 [] relations)) := by
      unfold select_relevant_context
      rw [if_neg (by simp [hemp])]
    rw [hsel]
    dsimp only
    constructor
    · split <;> rfl
    constructor
    · intro hle
      split
      · rename_i hlt
        have := List.length_take_le (8 - (mentioned_pass (lower_str text)
          entities).1.length) (sort_desc_updated (entities.filter (fun e =>
            !(mentioned_pass (lower_str text) entities).2.contains e.id)))
        simp only [List.length_append]
        omega
      · exact hle
    constructor
    · exact relations_select_length _ 5 relations [] (by simp)
    · intro r hr
      have hfseen :
          (if (mentioned_pass (lower_str text) entities).1.length < 8 then
            ((mentioned_pass (lower_str text) entities).1 ++
              (sort_desc_updated (entities.filter (fun e =>
                !(mentioned_pass (lower_str text) entities).2.contains
                  e.id))).take
                (8 - (mentioned_pass (lower_str text) entities).1.length),
             (mentioned_pass (lower_str text) entities).2 ++
              ((sort_desc_updated (entities.filter (fun e =>
                !(mentioned_pass (lower_str text) entities).2.contains
                  e.id))).take
                (8 - (mentioned_pass (lower_str text)
                  entities).1.length)).map (·.id))
          else mentioned_pass (lower_str text) entities).2 =
          (if (mentioned_pass (lower_str text) entities).1.length < 8 then
            ((mentioned_pass (lower_str text) entities).1 ++
              (sort_desc_updated (entities.filter (fun e =>
                !(mentioned_pass (lower_str text) entities).2.contains
                  e.id))).take
                (8 - (mentioned_pass (lower_str text) entities).1.length),
             (mentioned_pass (lower_str text) entities).2 ++
              ((sort_desc_updated (entities.filter (fun e =>
                !(mentioned_pass (lower_str text) entities).2.contains
                  e.id))).take
                (8 - (mentioned_pass (lower_str text)
                  entities).1.length)).map (·.id))
          else mentioned_pass (lower_str text) entities).1.map (·.id) := by
        split
        · simp [hseen]
        · exact hseen
      have hP := relations_select_endpoints _ 5 relations [] (by simp) r hr
      rw [hfseen] at hP
      rcases hP with hP | hP
      · exact Or.inl ((contains_map_id_iff _ _).mp hP)
      · exact Or.inr ((contains_map_id_iff _ _).mp hP)

theorem C9_context_selection_witness :
    (∃ e ∈ (select_relevant_context "kim works".toList
        [⟨"u1".toList, "kim".toList, .PERSON, 0, 0⟩]
        [⟨"r1".toList, "u1".toList, "u2".toList, "works at".toList, 0⟩] 8 5).1,
      e.id = (⟨"r1".toList, "u1".toList, "u2".toList, "works at".toList,
        (0 : Nat)⟩ : GraphRelation).source) ∨
    (∃ e ∈ (select_relevant_context "kim works".toList
        [⟨"u1".toList, "kim".toList, .PERSON, 0, 0⟩]
        [⟨"r1".toList, "u1".toList, "u2".toList, "works at".toList, 0⟩] 8 5).1,
      e.id = (⟨"r1".toList, "u1".toList, "u2".toList, "works at".toList,
        (0 : Nat)⟩ : GraphRelation).target) :=
  (C9_context_selection "kim works".toList
      [⟨"u1".toList, "kim".toList, .PERSON, 0, 0⟩]
      [⟨"r1".toList, "u1".toList, "u2".toList, "works at".toList, 0⟩]).2.2.2
    ⟨"r1".toList, "u1".toList, "u2".toList, "works at".toList, 0⟩ (by decide)

/-- C9 counterexample: with nine entities whose labels all occur in the
input text, the selected entity context has nine entries — the claimed
8-entity cap does not hold, because the mention pass is uncapped and the
cap is only applied to the recency fill. -/
theorem C9_nine_mentioned_entities_selected :
    (select_relevant_context "abcdefghi".toList
      [⟨"1".toList, "a".toList, .PERSON, 0, 0⟩,
       ⟨"2".toList, "b".toList, .PERSON, 0, 0⟩,
       ⟨"3".toList, "c".toList, .PERSON, 0, 0⟩,
       ⟨"4".toList, "d".toList, .PERSON, 0, 0⟩,
       ⟨"5".toList, "e".toList, .PERSON, 0, 0⟩,
       ⟨"6".toList, "f".toList, .PERSON, 0, 0⟩,
       ⟨"7".toList, "g".toList, .PERSON, 0, 0⟩,
       ⟨"8".toList, "h".toList, .PERSON, 0, 0⟩,
       ⟨"9".toList, "i".toList, .PERSON, 0, 0⟩] [] 8 5).1.length = 9 := by
  decide

/-! ## Claim C10: short carved segments are silently discarded -/

theorem extract_short_drop (endings : List (List Char)) (text : List Char)
    (i : Nat) (e : List Char)
    (hb : best_ending text endings none = some (i, e))
    (hshort : (strip (text.take (i + e.length))).length ≤ 3) :
    extract_complete_sentences endings text =
      extract_complete_sentences endings
        (strip (text.drop (i + e.length))) := by
  conv_lhs => rw [extract_complete_sentences]
  split
  · rename_i heq
    rw [hb] at heq
    exact absurd heq (by simp)
  · rename_i i' e' heq
    rw [hb] at heq
    have h2 : (i, e) = (i', e') := Option.some.inj heq
    obtain ⟨rfl, rfl⟩ : i' = i ∧ e' = e :=
      ⟨(congrArg Prod.fst h2).symm, (congrArg Prod.snd h2).symm⟩
    have hnot := Nat.not_lt.mpr hshort
    simp [hnot]

theorem extract_emit (endings : List (List Char)) (text : List Char)
    (i : Nat) (e : List Char)
    (hb : best_ending text endings none = some (i, e))
    (hlong : 3 < (strip (text.take (i + e.length))).length) :
    extract_complete_sentences endings text =
      (strip (text.take (i + e.length)),
        strip (text.drop (i + e.length))) ::
        extract_complete_sentences endings
          (strip (text.drop (i + e.length))) := by
  conv_lhs => rw [extract_complete_sentences]
  split
  · rename_i heq
    rw [hb] at heq
    exact absurd heq (by simp)
  · rename_i i' e' heq
    rw [hb] at heq
    have h2 : (i, e) = (i', e') := Option.some.inj heq
    obtain ⟨rfl, rfl⟩ : i' = i ∧ e' = e :=
      ⟨(congrArg Prod.fst h2).symm, (congrArg Prod.snd h2).symm⟩
    simp [hlong]

theorem extract_done (endings : List (List Char)) (text : List Char)
    (hb : best_ending text endings none = none) :
    extract_complete_sentences endings text = [] := by
  conv_lhs => rw [extract_complete_sentences]
  split
  · rfl
  · rename_i i' e' heq
    rw [hb] at heq
    exact absurd heq (by simp)

/-- C10: (1) whenever the earliest terminator delimits a segment whose
stripped length is 3 or fewer, the carve result is exactly the carve of
the remainder — the segment is cut out and never emitted; (2) concretely,
for the buffer `"Hi. This is a long sentence. tail"` the NLP worker emits
only the long sentence and rebinds the buffer to `"tail"`, so the text
`"Hi"` — present in the incoming buffer — appears in no emitted sentence
and not in the retained buffer: it is silently lost from the pipeline. -/
theorem C10_short_segment_silently_lost :
    (∀ (endings : List (List Char)) (text : List Char) (i : Nat)
        (e : List Char),
      best_ending text endings none = some (i, e) →
      (strip (text.take (i + e.length))).length ≤ 3 →
      extract_complete_sentences endings text =
        extract_complete_sentences endings
          (strip (text.drop (i + e.length))))
    ∧
    ((nlp_consume "Hi. This is a long sentence. tail".toList
        (extract_complete_sentences default_endings
          "Hi. This is a long sentence. tail".toList)).1 =
      ["This is a long sentence.".toList] ∧
     (nlp_consume "Hi. This is a long sentence. tail".toList
        (extract_complete_sentences default_endings
          "Hi. This is a long sentence. tail".toList)).2 = "tail".toList ∧
     sub_str "Hi".toList "Hi. This is a long sentence. tail".toList = true ∧
     sub_str "Hi".toList "This is a long sentence.".toList = false ∧
     sub_str "Hi".toList "tail".toList = false) := by
  refine ⟨extract_short_drop, ?_⟩
  have e1 := extract_short_drop default_endings
    "Hi. This is a long sentence. tail".toList 2 ". ".toList
    (by decide) (by decide)
  have hs1 : strip ("Hi. This is a long sentence. tail".toList.drop
      (2 + ". ".toList.length)) = "This is a long sentence. tail".toList := by
    decide
  rw [hs1] at e1
  have e2 := extract_emit default_endings
    "This is a long sentence. tail".toList 23 ". ".toList
    (by decide) (by decide)
  have hs2 : strip ("This is a long sentence. tail".toList.take
      (23 + ". ".toList.length)) = "This is a long sentence.".toList := by
    decide
  have hs3 : strip ("This is a long sentence. tail".toList.drop
      (23 + ". ".toList.length)) = "tail".toList := by
    decide
  rw [hs2, hs3] at e2
  have e3 := extract_done default_endings "tail".toList (by decide)
  have hfull : extract_complete_sentences default_endings
      "Hi. This is a long sentence. tail".toList =
      [("This is a long sentence.".toList, "tail".toList)] := by
    rw [e1, e2, e3]
  rw [hfull]
  refine ⟨by decide, by decide, by decide, by decide, by decide⟩

theorem C10_short_segment_silently_lost_witness :
    extract_complete_sentences default_endings
        "Hi. This is a long sentence. tail".toList =
      extract_complete_sentences default_endings
        (strip ("Hi. This is a long sentence. tail".toList.drop
          (2 + ". ".toList.length))) :=
  C10_short_segment_silently_lost.1 default_endings
    "Hi. This is a long sentence. tail".toList 2 ". ".toList
    (by decide) (by decide)

/-! ## Claim C8: field order in streamed entity and relation objects -/

/-- C8 counterexample: an entity object whose fields arrive as
`label, id, type` — a complete literal with the three required fields —
is not parsed at all, while the identical object in `id, label, type`
order is; the claimed field-order independence for entities fails. -/
theorem C8_entity_fields_out_of_order_dropped :
    try_parse_entities
      ("\x7b\"entities\": [\x7b\"label\":\"Kim\",\"id\":\"e1\",\"type\":\"PERSON\"\x7d], \"relations\":[]\x7d").toList
      = [] ∧
    try_parse_entities
      ("\x7b\"entities\": [\x7b\"id\":\"e1\",\"label\":\"Kim\",\"type\":\"PERSON\"\x7d], \"relations\":[]\x7d").toList
      = [⟨"e1".toList, "Kim".toList, .PERSON⟩] := by
  decide

/-- C8 (amended): relation object literals are matched regardless of field
order — all six orders of a representative literal parse — but entity
object literals are matched only when the fields appear in exactly the
order `id`, `label`, `type`; the five other orders are dropped. -/
theorem C8_entity_order_fixed_relation_order_free :
    (try_parse_entities
      ("\x7b\"entities\": [\x7b\"id\":\"e1\",\"label\":\"Kim\",\"type\":\"PERSON\"\x7d]\x7d").toList
      = [⟨"e1".toList, "Kim".toList, .PERSON⟩]) ∧
    (try_parse_entities
      ("\x7b\"entities\": [\x7b\"id\":\"e1\",\"type\":\"PERSON\",\"label\":\"Kim\"\x7d]\x7d").toList
      = []) ∧
    (try_parse_entities
      ("\x7b\"entities\": [\x7b\"label\":\"Kim\",\"id\":\"e1\",\"type\":\"PERSON\"\x7d]\x7d").toList
      = []) ∧
    (try_parse_entities
      ("\x7b\"entities\": [\x7b\"label\":\"Kim\",\"type\":\"PERSON\",\"id\":\"e1\"\x7d]\x7d").toList
      = []) ∧
    (try_parse_entities
      ("\x7b\"entities\": [\x7b\"type\":\"PERSON\",\"id\":\"e1\",\"label\":\"Kim\"\x7d]\x7d").toList
      = []) ∧
    (try_parse_entities
      ("\x7b\"entities\": [\x7b\"type\":\"PERSON\",\"label\":\"Kim\",\"id\":\"e1\"\x7d]\x7d").toList
      = []) ∧
    (try_parse_relations
      ("\x7b\"relations\": [\x7b\"source\":\"e1\",\"target\":\"e2\",\"relation\":\"works at\"\x7d]\x7d").toList
      = [⟨"e1".toList, "e2".toList, "works at".toList⟩]) ∧
    (try_parse_relations
      ("\x7b\"relations\": [\x7b\"source\":\"e1\",\"relation\":\"works at\",\"target\":\"e2\"\x7d]\x7d").toList
      = [⟨"e1".toList, "e2".toList, "works at".toList⟩]) ∧
    (try_parse_relations
      ("\x7b\"relations\": [\x7b\"target\":\"e2\",\"source\":\"e1\",\"relation\":\"works at\"\x7d]\x7d").toList
      = [⟨"e1".toList, "e2".toList, "works at".toList⟩]) ∧
    (try_parse_relations
      ("\x7b\"relations\": [\x7b\"target\":\"e2\",\"relation\":\"works at\",\"source\":\"e1\"\x7d]\x7d").toList
      = [⟨"e1".toList, "e2".toList, "works at".toList⟩]) ∧
    (try_parse_relations
      ("\x7b\"relations\": [\x7b\"relation\":\"works at\",\"source\":\"e1\",\"target\":\"e2\"\x7d]\x7d").toList
      = [⟨"e1".toList, "e2".toList, "works at".toList⟩]) ∧
    (try_parse_relations
      ("\x7b\"relations\": [\x7b\"relation\":\"works at\",\"target\":\"e2\",\"source\":\"e1\"\x7d]\x7d").toList
      = [⟨"e1".toList, "e2".toList, "works at".toList⟩]) := by
  decide

/-! ## Claim C7: feeding in chunks versus one shot -/

theorem contains_true_mem {l : List (List Char)} {x : List Char}
    (h : l.contains x = true) : x ∈ l := by
  simp only [List.contains] at h
  exact List.mem_of_elem_eq_true h

theorem contains_false_not_mem {l : List (List Char)} {x : List Char}
    (h : l.contains x = false) : x ∉ l := by
  intro hmem
  have htrue := List.elem_eq_true_of_mem hmem
  simp only [List.contains] at h
  rw [htrue] at h
  cases h

theorem dedup_entities_spec (l : List ExtractedEntity) :
    ∀ (seen : List (List Char)) (parsed newAcc : List ExtractedEntity),
      ∃ delta, dedup_entities seen parsed newAcc l =
          (seen ++ delta.map (·.id), parsed ++ delta, newAcc ++ delta) ∧
        ∀ x ∈ delta, x ∈ l := by
  induction l with
  | nil =>
      intro seen parsed newAcc
      exact ⟨[], by simp [dedup_entities], by simp⟩
  | cons e rest ih =>
      intro seen parsed newAcc
      unfold dedup_entities
      split
      · obtain ⟨delta, hd, hmem⟩ := ih seen parsed newAcc
        exact ⟨delta, hd, fun x hx => List.mem_cons_of_mem _ (hmem x hx)⟩
      · obtain ⟨delta, hd, hmem⟩ := ih (seen ++ [e.id]) (parsed ++ [e])
          (newAcc ++ [e])
        refine ⟨e :: delta, ?_, ?_⟩
        · rw [hd]
          simp
        · intro x hx
          rcases List.mem_cons.mp hx with rfl | hx2
          · exact List.mem_cons_self _ _
          · exact List.mem_cons_of_mem _ (hmem x hx2)

theorem dedup_relations_spec (l : List ExtractedRelation) :
    ∀ (seen : List (List Char)) (parsed newAcc : List ExtractedRelation),
      ∃ delta, dedup_relations seen parsed newAcc l =
          (seen ++ delta.map rel_key, parsed ++ delta, newAcc ++ delta) ∧
        ∀ x ∈ delta, x ∈ l := by
  induction l with
  | nil =>
      intro seen parsed newAcc
      exact ⟨[], by simp [dedup_relations], by simp⟩
  | cons e rest ih =>
      intro seen parsed newAcc
      unfold dedup_relations
      split
      · obtain ⟨delta, hd, hmem⟩ := ih seen parsed newAcc
        exact ⟨delta, hd, fun x hx => List.mem_cons_of_mem _ (hmem x hx)⟩
      · obtain ⟨delta, hd, hmem⟩ := ih (seen ++ [rel_key e]) (parsed ++ [e])
          (newAcc ++ [e])
        refine ⟨e :: delta, ?_, ?_⟩
        · rw [hd]
          simp
        · intro x hx
          rcases List.mem_cons.mp hx with rfl | hx2
          · exact List.mem_cons_self _ _
          · exact List.mem_cons_of_mem _ (hmem x hx2)

theorem dedup_entities_nodup (l : List ExtractedEntity) :
    ∀ (seen : List (List Char)) (parsed newAcc : List ExtractedEntity),
      seen = parsed.map (·.id) → (parsed.map (·.id)).Nodup →
      (((dedup_entities seen parsed newAcc l).2.1).map (·.id)).Nodup := by
  induction l with
  | nil => intro seen parsed newAcc _ hnd; exact hnd
  | cons e rest ih =>
      intro seen parsed newAcc hseen hnd
      unfold dedup_entities
      split
      · exact ih seen parsed newAcc hseen hnd
      · rename_i hc
        apply ih (seen ++ [e.id]) (parsed ++ [e]) (newAcc ++ [e])
        · simp [hseen]
        · have hnm : e.id ∉ parsed.map (·.id) := by
            rw [← hseen]
            exact contains_false_not_mem (by simpa using hc)
          simp only [List.map_append, List.map_cons, List.map_nil]
          exact List.Nodup.append hnd (List.nodup_singleton _)
            (by simpa [List.disjoint_singleton] using hnm)

theorem dedup_relations_nodup (l : List ExtractedRelation) :
    ∀ (seen : List (List Char)) (parsed newAcc : List ExtractedRelation),
      seen = parsed.map rel_key → (parsed.map rel_key).Nodup →
      (((dedup_relations seen parsed newAcc l).2.1).map rel_key).Nodup := by
  induction l with
  | nil => intro seen parsed newAcc _ hnd; exact hnd
  | cons e rest ih =>
      intro seen parsed newAcc hseen hnd
      unfold dedup_relations
      split
      · exact ih seen parsed newAcc hseen hnd
      · rename_i hc
        apply ih (seen ++ [rel_key e]) (parsed ++ [e]) (newAcc ++ [e])
        · simp [hseen]
        · have hnm : rel_key e ∉ parsed.map rel_key := by
            rw [← hseen]
            exact contains_false_not_mem (by simpa using hc)
          simp only [List.map_append, List.map_cons, List.map_nil]
          exact List.Nodup.append hnd (List.nodup_singleton _)
            (by simpa [List.disjoint_singleton] using hnm)

theorem dedup_entities_covers (l : List ExtractedEntity) :
    ∀ (seen : List (List Char)) (parsed newAcc : List ExtractedEntity),
      seen = parsed.map (·.id) →
      ∀ x ∈ l, ∃ p ∈ (dedup_entities seen parsed newAcc l).2.1,
        p.id = x.id := by
  induction l with
  | nil => intro seen parsed newAcc _ x hx; simp at hx
  | cons e rest ih =>
      intro seen parsed newAcc hseen x hx
      unfold dedup_entities
      split
      · rename_i hc
        rcases List.mem_cons.mp hx with rfl | hx2
        · have : x.id ∈ parsed.map (·.id) := by
            rw [← hseen]; exact contains_true_mem hc
          obtain ⟨p, hp, hpid⟩ := List.mem_map.mp this
          obtain ⟨delta, hd, -⟩ := dedup_entities_spec rest seen parsed newAcc
          exact ⟨p, by rw [hd]; exact List.mem_append_left _ hp, hpid⟩
        · exact ih seen parsed newAcc hseen x hx2
      · rcases List.mem_cons.mp hx with rfl | hx2
        · obtain ⟨delta, hd, -⟩ := dedup_entities_spec rest (seen ++ [x.id])
            (parsed ++ [x]) (newAcc ++ [x])
          refine ⟨x, ?_, rfl⟩
          rw [hd]
          exact List.mem_append_left _ (List.mem_append_right _
            (List.mem_singleton.mpr rfl))
        · exact ih (seen ++ [e.id]) (parsed ++ [e]) (newAcc ++ [e])
            (by simp [hseen]) x hx2

theorem dedup_relations_covers (l : List ExtractedRelation) :
    ∀ (seen : List (List Char)) (parsed newAcc : List ExtractedRelation),
      seen = parsed.map rel_key →
      ∀ x ∈ l, ∃ p ∈ (dedup_relations seen parsed newAcc l).2.1,
        rel_key p = rel_key x := by
  induction l with
  | nil => intro seen parsed newAcc _ x hx; simp at hx
  | cons e rest ih =>
      intro seen parsed newAcc hseen x hx
      unfold dedup_relations
      split
      · rename_i hc
        rcases List.mem_cons.mp hx with rfl | hx2
        · have : rel_key x ∈ parsed.map rel_key := by
            rw [← hseen]; exact contains_true_mem hc
          obtain ⟨p, hp, hpid⟩ := List.mem_map.mp this
          obtain ⟨delta, hd, -⟩ := dedup_relations_spec rest seen parsed newAcc
          exact ⟨p, by rw [hd]; exact List.mem_append_left _ hp, hpid⟩
        · exact ih seen parsed newAcc hseen x hx2
      · rcases List.mem_cons.mp hx with rfl | hx2
        · obtain ⟨delta, hd, -⟩ := dedup_relations_spec rest
            (seen ++ [rel_key x]) (parsed ++ [x]) (newAcc ++ [x])
          refine ⟨x, ?_, rfl⟩
          rw [hd]
          exact List.mem_append_left _ (List.mem_append_right _
            (List.mem_singleton.mpr rfl))
        · exact ih (seen ++ [rel_key e]) (parsed ++ [e]) (newAcc ++ [e])
            (by simp [hseen]) x hx2

/-- The `PartialJSONParser` state invariant: the dedup sets list exactly
the keys of the accumulated results, without repetition. -/
def parser_inv (st : ParserState) : Prop :=
  st.seenEntityIds = st.parsedEntities.map (·.id) ∧
  st.seenRelationKeys = st.parsedRelations.map rel_key ∧
  (st.parsedEntities.map (·.id)).Nodup ∧
  (st.parsedRelations.map rel_key).Nodup

theorem feed_spec (st : ParserState) (c : List Char)
    (hinv : parser_inv st) :
    parser_inv (feed st c).1 ∧
    (feed st c).1.buffer = st.buffer ++ c ∧
    (feed st c).1.parsedEntities = st.parsedEntities ++ (feed st c).2.1 ∧
    (feed st c).1.parsedRelations = st.parsedRelations ++ (feed st c).2.2 ∧
    (∀ x ∈ try_parse_entities (extract_json_content (st.buffer ++ c)),
      ∃ p ∈ (feed st c).1.parsedEntities, p.id = x.id) ∧
    (∀ x ∈ try_parse_relations (extract_json_content (st.buffer ++ c)),
      ∃ p ∈ (feed st c).1.parsedRelations, rel_key p = rel_key x) ∧
    (∀ x ∈ (feed st c).2.1,
      x ∈ try_parse_entities (extract_json_content (st.buffer ++ c))) ∧
    (∀ x ∈ (feed st c).2.2,
      x ∈ try_parse_relations (extract_json_content (st.buffer ++ c))) := by
  obtain ⟨hs1, hs2, hn1, hn2⟩ := hinv
  unfold feed
  dsimp only
  split
  · rename_i hempty
    have hcont : extract_json_content (st.buffer ++ c) = [] := by
      simpa [List.isEmpty_iff] using hempty
    refine ⟨⟨hs1, hs2, hn1, hn2⟩, rfl, by simp, by simp, ?_, ?_,
      by intro x hx; simp at hx, by intro x hx; simp at hx⟩
    · rw [hcont]
      intro x hx
      simp [try_parse_entities, array_capture, scan_suffixes,
        key_array_at] at hx
    · rw [hcont]
      intro x hx
      simp [try_parse_relations, array_capture, scan_suffixes,
        key_array_at] at hx
  · obtain ⟨deltaE, hdE, hmemE⟩ := dedup_entities_spec
      (try_parse_entities (extract_json_content (st.buffer ++ c)))
      st.seenEntityIds st.parsedEntities []
    obtain ⟨deltaR, hdR, hmemR⟩ := dedup_relations_spec
      (try_parse_relations (extract_json_content (st.buffer ++ c)))
      st.seenRelationKeys st.parsedRelations []
    rw [hdE, hdR]
    dsimp only
    refine ⟨⟨?_, ?_, ?_, ?_⟩, rfl, by simp, by simp, ?_, ?_, ?_, ?_⟩
    · simp [hs1]
    · simp [hs2]
    · have := dedup_entities_nodup
        (try_parse_entities (extract_json_content (st.buffer ++ c)))
        st.seenEntityIds st.parsedEntities [] hs1 hn1
      rw [hdE] at this
      exact this
    · have := dedup_relations_nodup
        (try_parse_relations (extract_json_content (st.buffer ++ c)))
        st.seenRelationKeys st.parsedRelations [] hs2 hn2
      rw [hdR] at this
      exact this
    · intro x hx
      have := dedup_entities_covers
        (try_parse_entities (extract_json_content (st.buffer ++ c)))
        st.seenEntityIds st.parsedEntities [] hs1 x hx
      rw [hdE] at this
      exact this
    · intro x hx
      have := dedup_relations_covers
        (try_parse_relations (extract_json_content (st.buffer ++ c)))
        st.seenRelationKeys st.parsedRelations [] hs2 x hx
      rw [hdR] at this
      exact this
    · intro x hx
      exact hmemE x (by simpa using hx)
    · intro x hx
      exact hmemR x (by simpa using hx)

theorem run_feeds_spec (cs : List (List Char)) :
    ∀ st : ParserState, parser_inv st →
      parser_inv (run_feeds st cs).1 ∧
      (run_feeds st cs).1.buffer = st.buffer ++ cs.flatten ∧
      (run_feeds st cs).1.parsedEntities =
        st.parsedEntities ++ (run_feeds st cs).2.1 ∧
      (run_feeds st cs).1.parsedRelations =
        st.parsedRelations ++ (run_feeds st cs).2.2 := by
  induction cs with
  | nil => intro st hinv; exact ⟨hinv, by simp [run_feeds], by
      simp [run_feeds], by simp [run_feeds]⟩
  | cons c rest ih =>
      intro st hinv
      obtain ⟨hinv1, hbuf1, hpe1, hpr1, -, -, -, -⟩ := feed_spec st c hinv
      obtain ⟨hinv2, hbuf2, hpe2, hpr2⟩ := ih (feed st c).1 hinv1
      unfold run_feeds
      refine ⟨hinv2, ?_, ?_, ?_⟩
      · dsimp only
        rw [hbuf2, hbuf1]
        simp
      · dsimp only
        rw [hpe2, hpe1]
        simp
      · dsimp only
        rw [hpr2, hpr1]
        simp

theorem run_feeds_coverage (cs : List (List Char)) (hcs : cs ≠ []) :
    ∀ st : ParserState, parser_inv st →
      (∀ x ∈ try_parse_entities (extract_json_content
          (st.buffer ++ cs.flatten)),
        ∃ p ∈ (run_feeds st cs).1.parsedEntities, p.id = x.id) ∧
      (∀ x ∈ try_parse_relations (extract_json_content
          (st.buffer ++ cs.flatten)),
        ∃ p ∈ (run_feeds st cs).1.parsedRelations,
          rel_key p = rel_key x) := by
  induction cs with
  | nil => exact absurd rfl hcs
  | cons c rest ih =>
      intro st hinv
      obtain ⟨hinv1, hbuf1, hpe1, hpr1, hcovE, hcovR, -, -⟩ := feed_spec st c hinv
      by_cases hrest : rest = []
      · subst hrest
        constructor
        · intro x hx
          obtain ⟨p, hp, hpid⟩ := hcovE x (by simpa using hx)
          exact ⟨p, by simpa [run_feeds] using hp, hpid⟩
        · intro x hx
          obtain ⟨p, hp, hpid⟩ := hcovR x (by simpa using hx)
          exact ⟨p, by simpa [run_feeds] using hp, hpid⟩
      · obtain ⟨ihE, ihR⟩ := ih hrest (feed st c).1 hinv1
        constructor
        · intro x hx
          have hx' : x ∈ try_parse_entities (extract_json_content
              ((feed st c).1.buffer ++ rest.flatten)) := by
            rw [hbuf1, List.append_assoc]
            simpa using hx
          obtain ⟨p, hp, hpid⟩ := ihE x hx'
          refine ⟨p, ?_, hpid⟩
          unfold run_feeds
          exact hp
        · intro x hx
          have hx' : x ∈ try_parse_relations (extract_json_content
              ((feed st c).1.buffer ++ rest.flatten)) := by
            rw [hbuf1, List.append_assoc]
            simpa using hx
          obtain ⟨p, hp, hpid⟩ := ihR x hx'
          refine ⟨p, ?_, hpid⟩
          unfold run_feeds
          exact hp

theorem parser_inv_init : parser_inv init_pstate :=
  ⟨rfl, rfl, List.nodup_nil, List.nodup_nil⟩

theorem run_feeds_single (st : ParserState) (c : List Char) :
    (run_feeds st [c]).2.1 = (feed st c).2.1 ∧
    (run_feeds st [c]).2.2 = (feed st c).2.2 := by
  unfold run_feeds run_feeds
  exact ⟨by simp, by simp⟩

theorem one_shot_returned_sub (c : List Char) :
    (∀ x ∈ (run_feeds init_pstate [c]).2.1,
      x ∈ try_parse_entities (extract_json_content c)) ∧
    (∀ x ∈ (run_feeds init_pstate [c]).2.2,
      x ∈ try_parse_relations (extract_json_content c)) := by
  obtain ⟨h1, h2⟩ := run_feeds_single init_pstate c
  obtain ⟨-, -, -, -, -, -, hr1, hr2⟩ := feed_spec init_pstate c
    parser_inv_init
  constructor
  · intro x hx
    rw [h1] at hx
    simpa [init_pstate] using hr1 x hx
  · intro x hx
    rw [h2] at hx
    simpa [init_pstate] using hr2 x hx

/-- C7 (amended): across any sequence of `feed` calls, no entity id and no
relation key is ever returned twice; and the chunked run returns a
superset of the one-shot run on the same final text — every entity id and
every relation key returned by feeding the concatenation in one chunk is
also returned by the chunked run.  (Equality of the two runs fails; see
the counterexample.) -/
theorem C7_chunked_run_superset_and_no_duplicates
    (chunks : List (List Char)) :
    ((run_feeds init_pstate chunks).2.1.map (·.id)).Nodup ∧
    ((run_feeds init_pstate chunks).2.2.map rel_key).Nodup ∧
    (∀ x ∈ (run_feeds init_pstate [chunks.flatten]).2.1,
      ∃ p ∈ (run_feeds init_pstate chunks).2.1, p.id = x.id) ∧
    (∀ x ∈ (run_feeds init_pstate [chunks.flatten]).2.2,
      ∃ p ∈ (run_feeds init_pstate chunks).2.2, rel_key p = rel_key x) := by
  obtain ⟨hinvF, hbufF, hpeF, hprF⟩ := run_feeds_spec chunks init_pstate
    parser_inv_init
  have hpe : (run_feeds init_pstate chunks).1.parsedEntities =
      (run_feeds init_pstate chunks).2.1 := by
    simpa [init_pstate] using hpeF
  have hpr : (run_feeds init_pstate chunks).1.parsedRelations =
      (run_feeds init_pstate chunks).2.2 := by
    simpa [init_pstate] using hprF
  refine ⟨?_, ?_, ?_, ?_⟩
  · have := hinvF.2.2.1
    rwa [hpe] at this
  · have := hinvF.2.2.2
    rwa [hpr] at this
  · intro x hx
    by_cases hchunks : chunks = []
    · subst hchunks
      have := (one_shot_returned_sub []).1 x (by simpa using hx)
      have h0 : try_parse_entities (extract_json_content ([] : List Char))
          = [] := by decide
      rw [h0] at this
      simp at this
    · have hsub := (one_shot_returned_sub chunks.flatten).1 x hx
      have hcov := (run_feeds_coverage chunks hchunks init_pstate
        parser_inv_init).1 x (by simpa [init_pstate] using hsub)
      rw [hpe] at hcov
      exact hcov
  · intro x hx
    by_cases hchunks : chunks = []
    · subst hchunks
      have := (one_shot_returned_sub []).2 x (by simpa using hx)
      have h0 : try_parse_relations (extract_json_content ([] : List Char))
          = [] := by decide
      rw [h0] at this
      simp at this
    · have hsub := (one_shot_returned_sub chunks.flatten).2 x hx
      have hcov := (run_feeds_coverage chunks hchunks init_pstate
        parser_inv_init).2 x (by simpa [init_pstate] using hsub)
      rw [hpr] at hcov
      exact hcov

theorem C7_chunked_run_superset_witness :
    ∃ p ∈ (run_feeds init_pstate
      [("\x7b\"entities\":[\x7b\"id\":\"x\",\"label\":\"y\",\"type\":\"PERSON\"\x7d]\x7d").toList,
       [tick, tick, tick] ++ "json".toList ++
         ("\x7b\"entities\":[\x7b\"id\":\"w\",\"label\":\"y\",\"type\":\"PERSON\"\x7d],\"relations\":[]\x7d").toList]).2.1,
      p.id = (⟨"w".toList, "y".toList, EntityType.PERSON⟩ :
        ExtractedEntity).id :=
  (C7_chunked_run_superset_and_no_duplicates
    [("\x7b\"entities\":[\x7b\"id\":\"x\",\"label\":\"y\",\"type\":\"PERSON\"\x7d]\x7d").toList,
     [tick, tick, tick] ++ "json".toList ++
       ("\x7b\"entities\":[\x7b\"id\":\"w\",\"label\":\"y\",\"type\":\"PERSON\"\x7d],\"relations\":[]\x7d").toList]).2.2.1
    ⟨"w".toList, "y".toList, EntityType.PERSON⟩ (by decide)

/-- C7 counterexample: the same final text fed in two chunks returns the
entities `x` and `w`, while fed in one chunk it returns only `w` — the
chunk boundary changes which JSON region the first pass sees (the raw
leading object versus the fenced block), so the final sets differ. -/
theorem C7_chunk_split_changes_result :
    (run_feeds init_pstate
      [("\x7b\"entities\":[\x7b\"id\":\"x\",\"label\":\"y\",\"type\":\"PERSON\"\x7d]\x7d").toList,
       [tick, tick, tick] ++ "json".toList ++
         ("\x7b\"entities\":[\x7b\"id\":\"w\",\"label\":\"y\",\"type\":\"PERSON\"\x7d],\"relations\":[]\x7d").toList]).2.1.map
      (·.id) = ["x".toList, "w".toList] ∧
    (run_feeds init_pstate
      [("\x7b\"entities\":[\x7b\"id\":\"x\",\"label\":\"y\",\"type\":\"PERSON\"\x7d]\x7d").toList ++
       ([tick, tick, tick] ++ "json".toList ++
         ("\x7b\"entities\":[\x7b\"id\":\"w\",\"label\":\"y\",\"type\":\"PERSON\"\x7d],\"relations\":[]\x7d").toList)]).2.1.map
      (·.id) = ["w".toList] := by
  decide

/-! ## Claim C3: re-applying the same ExtractionResult -/

/-- Every step of the entity loop takes the no-match (add) branch. -/
def all_new_steps (now : Nat) : EntAcc → List ExtractedEntity → Prop
  | _, [] => True
  | acc, e :: rest =>
      find_similar_entity e acc.ents = none ∧
      all_new_steps now (entity_step now acc e) rest

/-- The entities minted by an all-add entity loop. -/
def mk_news (now fresh : Nat) : List ExtractedEntity → List GraphEntity
  | [] => []
  | e :: rest =>
      ⟨mk_uuid fresh, e.label, e.type, now, now⟩ :: mk_news now (fresh + 1) rest

/-- The id-map pairs recorded by an all-add entity loop, in step order. -/
def mk_pairs (fresh : Nat) :
    List ExtractedEntity → List (List Char × List Char)
  | [] => []
  | e :: rest => (e.id, mk_uuid fresh) :: mk_pairs (fresh + 1) rest

theorem entity_step_added_some (now : Nat) (acc : EntAcc)
    (e : ExtractedEntity) {ex : GraphEntity}
    (h : find_similar_entity e acc.ents = some ex) :
    (entity_step now acc e).added = acc.added := by
  unfold entity_step
  rw [h]
  dsimp only
  split <;> rfl

theorem entity_step_none_eq (now : Nat) (acc : EntAcc)
    (e : ExtractedEntity) (h : find_similar_entity e acc.ents = none) :
    entity_step now acc e =
      ⟨acc.ents ++ [⟨mk_uuid acc.fresh, e.label, e.type, now, now⟩],
       (e.id, mk_uuid acc.fresh) :: acc.idMap,
       acc.added ++ [⟨mk_uuid acc.fresh, e.label, e.type, now, now⟩],
       acc.updated, acc.fresh + 1⟩ := by
  unfold entity_step
  rw [h]

theorem entities_pass_added_le (now : Nat) (l : List ExtractedEntity) :
    ∀ acc : EntAcc,
      (entities_pass now acc l).added.length ≤ acc.added.length + l.length := by
  induction l with
  | nil => intro acc; simp [entities_pass]
  | cons e rest ih =>
      intro acc
      have hstep : entities_pass now acc (e :: rest) =
          entities_pass now (entity_step now acc e) rest := rfl
      rw [hstep]
      cases hfs : find_similar_entity e acc.ents with
      | some ex =>
          have h1 := ih (entity_step now acc e)
          have hlen : (entity_step now acc e).added.length =
              acc.added.length := by
            rw [entity_step_added_some now acc e hfs]
          simp only [List.length_cons]
          omega
      | none =>
          have h1 := ih (entity_step now acc e)
          have hlen : (entity_step now acc e).added.length =
              acc.added.length + 1 := by
            rw [entity_step_none_eq now acc e hfs]
            simp
          simp only [List.length_cons]
          omega

theorem all_new_of_added_len (now : Nat) (l : List ExtractedEntity) :
    ∀ acc : EntAcc,
      (entities_pass now acc l).added.length = acc.added.length + l.length →
      all_new_steps now acc l := by
  induction l with
  | nil => intro acc _; trivial
  | cons e rest ih =>
      intro acc h
      have hstep : entities_pass now acc (e :: rest) =
          entities_pass now (entity_step now acc e) rest := rfl
      rw [hstep] at h
      cases hfs : find_similar_entity e acc.ents with
      | some ex =>
          exfalso
          have hle := entities_pass_added_le now rest (entity_step now acc e)
          have hlen : (entity_step now acc e).added.length =
              acc.added.length := by
            rw [entity_step_added_some now acc e hfs]
          simp only [List.length_cons] at h
          omega
      | none =>
          refine ⟨hfs, ?_⟩
          apply ih
          have hlen : (entity_step now acc e).added.length =
              acc.added.length + 1 := by
            rw [entity_step_none_eq now acc e hfs]
            simp
          simp only [List.length_cons] at h
          omega

theorem all_new_pass_eq (now : Nat) (l : List ExtractedEntity) :
    ∀ acc : EntAcc, all_new_steps now acc l →
      entities_pass now acc l =
        ⟨acc.ents ++ mk_news now acc.fresh l,
         (mk_pairs acc.fresh l).reverse ++ acc.idMap,
         acc.added ++ mk_news now acc.fresh l,
         acc.updated, acc.fresh + l.length⟩ := by
  induction l with
  | nil =>
      intro acc _
      cases acc
      simp [entities_pass, mk_news, mk_pairs]
  | cons e rest ih =>
      intro acc hall
      obtain ⟨hfs, hrest⟩ := hall
      have hstep : entities_pass now acc (e :: rest) =
          entities_pass now (entity_step now acc e) rest := rfl
      rw [hstep, ih _ hrest, entity_step_none_eq now acc e hfs]
      simp only [mk_news, mk_pairs, EntAcc.mk.injEq, List.reverse_cons,
        List.append_assoc, List.singleton_append, List.length_cons,
        true_and, and_true]
      omega

theorem find_similar_none_rule1 (e : ExtractedEntity)
    (E : List GraphEntity) (hne : normalize_label e.label ≠ [])
    (h : find_similar_entity e E = none) :
    ∀ y ∈ E, normalize_label y.label ≠ normalize_label e.label := by
  have hguard : (normalize_label e.label).isEmpty = false := by
    cases hcase : normalize_label e.label with
    | nil => exact absurd hcase hne
    | cons a t => rfl
  unfold find_similar_entity at h
  dsimp only at h
  rw [hguard] at h
  simp only [Bool.false_eq_true, if_false] at h
  cases hf : E.find? (fun y => normalize_label y.label ==
      normalize_label e.label) with
  | some y => rw [hf] at h; simp at h
  | none =>
      intro y hy hc
      have := List.find?_eq_none.mp hf y hy
      exact this (by simpa [beq_iff_eq] using hc)

theorem find_similar_in_news (now1 : Nat) (e : ExtractedEntity)
    (E : List GraphEntity) (f : Nat) (rest : List ExtractedEntity)
    (hne : normalize_label e.label ≠ [])
    (hE : ∀ y ∈ E, normalize_label y.label ≠ normalize_label e.label) :
    find_similar_entity e
        (E ++ (⟨mk_uuid f, e.label, e.type, now1, now1⟩ : GraphEntity) ::
          mk_news now1 (f + 1) rest) =
      some ⟨mk_uuid f, e.label, e.type, now1, now1⟩ := by
  have hguard : (normalize_label e.label).isEmpty = false := by
    cases hcase : normalize_label e.label with
    | nil => exact absurd hcase hne
    | cons a t => rfl
  have hfind : (E ++ (⟨mk_uuid f, e.label, e.type, now1, now1⟩ :
      GraphEntity) :: mk_news now1 (f + 1) rest).find?
        (fun y => normalize_label y.label == normalize_label e.label) =
      some ⟨mk_uuid f, e.label, e.type, now1, now1⟩ := by
    rw [List.find?_append]
    have hnoneE : E.find? (fun y => normalize_label y.label ==
        normalize_label e.label) = none := by
      rw [List.find?_eq_none]
      intro y hy
      simpa [beq_iff_eq] using hE y hy
    rw [hnoneE]
    simp [List.find?_cons_of_pos]
  unfold find_similar_entity
  dsimp only
  rw [hguard]
  simp only [Bool.false_eq_true, if_false]
  rw [hfind]

theorem pass2_entities_eq (now1 now2 : Nat) (l : List ExtractedEntity) :
    ∀ (acc1 acc2 : EntAcc),
      all_new_steps now1 acc1 l →
      (∀ e ∈ l, normalize_label e.label ≠ []) →
      acc2.ents = acc1.ents ++ mk_news now1 acc1.fresh l →
      entities_pass now2 acc2 l =
        ⟨acc2.ents, (mk_pairs acc1.fresh l).reverse ++ acc2.idMap,
         acc2.added, acc2.updated, acc2.fresh⟩ := by
  induction l with
  | nil =>
      intro acc1 acc2 _ _ _
      cases acc2
      simp [entities_pass, mk_pairs]
  | cons e rest ih =>
      intro acc1 acc2 hall hne hents
      obtain ⟨hfs, hrest⟩ := hall
      have hnee : normalize_label e.label ≠ [] :=
        hne e (List.mem_cons_self _ _)
      have hE := find_similar_none_rule1 e acc1.ents hnee hfs
      have hfind : find_similar_entity e acc2.ents =
          some ⟨mk_uuid acc1.fresh, e.label, e.type, now1, now1⟩ := by
        rw [hents]
        exact find_similar_in_news now1 e acc1.ents acc1.fresh rest hnee hE
      have hstep2 : entity_step now2 acc2 e =
          ⟨acc2.ents, (e.id, mk_uuid acc1.fresh) :: acc2.idMap,
           acc2.added, acc2.updated, acc2.fresh⟩ := by
        unfold entity_step
        rw [hfind]
        dsimp only
        rw [if_neg (by simp)]
      have hpass : entities_pass now2 acc2 (e :: rest) =
          entities_pass now2 (entity_step now2 acc2 e) rest := rfl
      rw [hpass, hstep2]
      have hrec := ih (entity_step now1 acc1 e)
        ⟨acc2.ents, (e.id, mk_uuid acc1.fresh) :: acc2.idMap,
         acc2.added, acc2.updated, acc2.fresh⟩
        hrest (fun x hx => hne x (List.mem_cons_of_mem _ hx)) ?_
      · rw [hrec]
        rw [entity_step_none_eq now1 acc1 e hfs]
        simp only [mk_pairs, List.reverse_cons, List.append_assoc,
          List.singleton_append]
      · rw [entity_step_none_eq now1 acc1 e hfs]
        dsimp only
        rw [hents]
        simp [mk_news, List.append_assoc]

theorem relation_step_mono (now : Nat) (ents : List GraphEntity)
    (M : List (List Char × List Char)) (acc : RelAcc)
    (ρ : ExtractedRelation) :
    ∃ B, (relation_step now ents M acc ρ).rels = acc.rels ++ B ∧
      (relation_step now ents M acc ρ).addedRels = acc.addedRels ++ B := by
  unfold relation_step
  split
  · split
    · exact ⟨[], by simp, by simp⟩
    · rename_i se te hse hte hdup
      exact ⟨[⟨mk_uuid acc.fresh, se.id, te.id, ρ.relation, now⟩],
        rfl, rfl⟩
  · exact ⟨[], by simp, by simp⟩

theorem relations_pass_mono (now : Nat) (ents : List GraphEntity)
    (M : List (List Char × List Char)) (l : List ExtractedRelation) :
    ∀ acc : RelAcc, ∃ B,
      (relations_pass now ents M acc l).rels = acc.rels ++ B ∧
      (relations_pass now ents M acc l).addedRels = acc.addedRels ++ B := by
  induction l with
  | nil => intro acc; exact ⟨[], by simp [relations_pass], by
      simp [relations_pass]⟩
  | cons ρ rest ih =>
      intro acc
      obtain ⟨B1, hB1r, hB1a⟩ := relation_step_mono now ents M acc ρ
      obtain ⟨B2, hB2r, hB2a⟩ := ih (relation_step now ents M acc ρ)
      refine ⟨B1 ++ B2, ?_, ?_⟩
      · have : relations_pass now ents M acc (ρ :: rest) =
            relations_pass now ents M (relation_step now ents M acc ρ)
              rest := rfl
        rw [this, hB2r, hB1r, List.append_assoc]
      · have : relations_pass now ents M acc (ρ :: rest) =
            relations_pass now ents M (relation_step now ents M acc ρ)
              rest := rfl
        rw [this, hB2a, hB1a, List.append_assoc]

theorem is_dup_of_mem {rels : List GraphRelation} {r : GraphRelation}
    {s t rel : List Char} (hmem : r ∈ rels)
    (hcond : dup_with s t rel r = true) :
    is_duplicate rels s t rel = true :=
  List.any_eq_true.mpr ⟨r, hmem, hcond⟩

theorem is_duplicate_append {rels : List GraphRelation}
    {s t rel : List Char} (h : is_duplicate rels s t rel = true)
    (B : List GraphRelation) :
    is_duplicate (rels ++ B) s t rel = true := by
  unfold is_duplicate at h ⊢
  rw [List.any_append, h, Bool.true_or]

theorem pass1_dup_witness (now : Nat) (ents : List GraphEntity)
    (M : List (List Char × List Char)) (l : List ExtractedRelation) :
    ∀ acc : RelAcc, ∀ ρ ∈ l, ∀ se te : GraphEntity,
      resolve_endpoint M ents ρ.source = some se →
      resolve_endpoint M ents ρ.target = some te →
      is_duplicate (relations_pass now ents M acc l).rels
        se.id te.id ρ.relation = true := by
  induction l with
  | nil => intro acc ρ hρ; simp at hρ
  | cons ρ0 rest ih =>
      intro acc ρ hρ se te hse hte
      have hpass : relations_pass now ents M acc (ρ0 :: rest) =
          relations_pass now ents M (relation_step now ents M acc ρ0)
            rest := rfl
      rcases List.mem_cons.mp hρ with rfl | hρ2
      · rw [hpass]
        obtain ⟨B, hBr, -⟩ := relations_pass_mono now ents M rest
          (relation_step now ents M acc ρ)
        by_cases hdup : is_duplicate acc.rels se.id te.id ρ.relation = true
        · have hstep : relation_step now ents M acc ρ = acc := by
            unfold relation_step
            rw [hse, hte]
            dsimp only
            rw [if_pos hdup]
          rw [hstep] at hBr ⊢
          rw [hBr]
          exact is_duplicate_append hdup B
        · have hstep : relation_step now ents M acc ρ =
              ⟨acc.rels ++ [⟨mk_uuid acc.fresh, se.id, te.id,
                ρ.relation, now⟩],
               acc.addedRels ++ [⟨mk_uuid acc.fresh, se.id, te.id,
                ρ.relation, now⟩],
               acc.fresh + 1⟩ := by
            unfold relation_step
            rw [hse, hte]
            dsimp only
            rw [if_neg hdup]
          rw [hstep] at hBr ⊢
          dsimp only at hBr
          rw [hBr]
          exact @is_dup_of_mem _
            ⟨mk_uuid acc.fresh, se.id, te.id, ρ.relation, now⟩
            se.id te.id ρ.relation
            (List.mem_append_left _ (List.mem_append_right _
              (List.mem_singleton.mpr rfl)))
            (by simp [dup_with])
      · rw [hpass]
        exact ih (relation_step now ents M acc ρ0) ρ hρ2 se te hse hte

theorem pass2_rels_noop (now2 : Nat) (ents : List GraphEntity)
    (M : List (List Char × List Char)) (l : List ExtractedRelation) :
    ∀ acc : RelAcc,
      (∀ ρ ∈ l, ∀ se te : GraphEntity,
        resolve_endpoint M ents ρ.source = some se →
        resolve_endpoint M ents ρ.target = some te →
        is_duplicate acc.rels se.id te.id ρ.relation = true) →
      relations_pass now2 ents M acc l = acc := by
  induction l with
  | nil => intro acc _; rfl
  | cons ρ0 rest ih =>
      intro acc H
      have hstep : relation_step now2 ents M acc ρ0 = acc := by
        unfold relation_step
        split
        · rename_i se te hse hte
          rw [if_pos (H ρ0 (List.mem_cons_self _ _) se te hse hte)]
        · rfl
      have hpass : relations_pass now2 ents M acc (ρ0 :: rest) =
          relations_pass now2 ents M (relation_step now2 ents M acc ρ0)
            rest := rfl
      rw [hpass, hstep]
      exact ih acc (fun ρ hρ => H ρ (List.mem_cons_of_mem _ hρ))

/-- C3 (amended): when the first application adds every entity of `R` as
new — and every entity label normalises to something non-empty — the
second application of the same `R` is inert: it adds no entities, updates
none, adds no relations, and leaves the entity and relation lists exactly
as the first application left them, while the version still increments
by 1 (re-application is not idempotent on the version). -/
theorem C3_reapply_inert_in_all_new_case (now1 now2 fresh1 fresh2 : Nat)
    (st : GraphState) (R : ExtractionResult)
    (hn : ∀ e ∈ R.entities, normalize_label e.label ≠ [])
    (hall : (apply_extraction now1 fresh1 st R).delta.addedEntities.length
      = R.entities.length) :
    (apply_extraction now2 fresh2 (apply_extraction now1 fresh1 st R).state
        R).delta.addedEntities = [] ∧
    (apply_extraction now2 fresh2 (apply_extraction now1 fresh1 st R).state
        R).delta.updatedEntities = [] ∧
    (apply_extraction now2 fresh2 (apply_extraction now1 fresh1 st R).state
        R).delta.addedRelations = [] ∧
    (apply_extraction now2 fresh2 (apply_extraction now1 fresh1 st R).state
        R).state.entities =
      (apply_extraction now1 fresh1 st R).state.entities ∧
    (apply_extraction now2 fresh2 (apply_extraction now1 fresh1 st R).state
        R).state.relations =
      (apply_extraction now1 fresh1 st R).state.relations ∧
    (apply_extraction now2 fresh2 (apply_extraction now1 fresh1 st R).state
        R).state.version =
      (apply_extraction now1 fresh1 st R).state.version + 1 := by
  have hlen : (entities_pass now1 ⟨st.entities, [], [], [], fresh1⟩
      R.entities).added.length = R.entities.length := hall
  have hAllNew := all_new_of_added_len now1 R.entities
    ⟨st.entities, [], [], [], fresh1⟩ (by simpa using hlen)
  have hea1 := all_new_pass_eq now1 R.entities
    ⟨st.entities, [], [], [], fresh1⟩ hAllNew
  have hents1 : (entities_pass now1 ⟨st.entities, [], [], [], fresh1⟩
      R.entities).ents = st.entities ++ mk_news now1 fresh1 R.entities := by
    rw [hea1]
  have hea2 := pass2_entities_eq now1 now2 R.entities
    ⟨st.entities, [], [], [], fresh1⟩
    ⟨(entities_pass now1 ⟨st.entities, [], [], [], fresh1⟩ R.entities).ents,
      [], [], [], fresh2⟩ hAllNew hn (by simpa using hents1)
  have hmap1 : (entities_pass now1 ⟨st.entities, [], [], [], fresh1⟩
      R.entities).idMap = (mk_pairs fresh1 R.entities).reverse ++ [] := by
    rw [hea1]
  have hmap2 : (entities_pass now2
      ⟨(entities_pass now1 ⟨st.entities, [], [], [], fresh1⟩
        R.entities).ents, [], [], [], fresh2⟩ R.entities).idMap =
      (mk_pairs fresh1 R.entities).reverse ++ [] := by
    rw [hea2]
  have hmapeq : (entities_pass now2
      ⟨(entities_pass now1 ⟨st.entities, [], [], [], fresh1⟩
        R.entities).ents, [], [], [], fresh2⟩ R.entities).idMap =
      (entities_pass now1 ⟨st.entities, [], [], [], fresh1⟩
        R.entities).idMap := by
    rw [hmap1, hmap2]
  have hentseq : (entities_pass now2
      ⟨(entities_pass now1 ⟨st.entities, [], [], [], fresh1⟩
        R.entities).ents, [], [], [], fresh2⟩ R.entities).ents =
      (entities_pass now1 ⟨st.entities, [], [], [], fresh1⟩
        R.entities).ents := by
    rw [hea2]
  have haddempty : (entities_pass now2
      ⟨(entities_pass now1 ⟨st.entities, [], [], [], fresh1⟩
        R.entities).ents, [], [], [], fresh2⟩ R.entities).added = [] := by
    rw [hea2]
  have hupdempty : (entities_pass now2
      ⟨(entities_pass now1 ⟨st.entities, [], [], [], fresh1⟩
        R.entities).ents, [], [], [], fresh2⟩ R.entities).updated = [] := by
    rw [hea2]
  -- the second relation pass starts from the first pass's final relation
  -- list and skips everything as a duplicate
  have hnoop := pass2_rels_noop now2
    (entities_pass now1 ⟨st.entities, [], [], [], fresh1⟩ R.entities).ents
    (entities_pass now1 ⟨st.entities, [], [], [], fresh1⟩ R.entities).idMap
    R.relations
    ⟨(relations_pass now1
        (entities_pass now1 ⟨st.entities, [], [], [], fresh1⟩
          R.entities).ents
        (entities_pass now1 ⟨st.entities, [], [], [], fresh1⟩
          R.entities).idMap
        ⟨st.relations, [],
          (entities_pass now1 ⟨st.entities, [], [], [], fresh1⟩
            R.entities).fresh⟩ R.relations).rels, [],
      (entities_pass now2
        ⟨(entities_pass now1 ⟨st.entities, [], [], [], fresh1⟩
          R.entities).ents, [], [], [], fresh2⟩ R.entities).fresh⟩
    (by
      intro ρ hρ se te hse hte
      exact pass1_dup_witness now1 _ _ R.relations _ ρ hρ se te hse hte)
  refine ⟨?_, ?_, ?_, ?_, ?_, ?_⟩
  · show (entities_pass now2
      ⟨(entities_pass now1 ⟨st.entities, [], [], [], fresh1⟩
        R.entities).ents, [], [], [], fresh2⟩ R.entities).added = []
    exact haddempty
  · show (entities_pass now2
      ⟨(entities_pass now1 ⟨st.entities, [], [], [], fresh1⟩
        R.entities).ents, [], [], [], fresh2⟩ R.entities).updated = []
    exact hupdempty
  · show (relations_pass now2
      (entities_pass now2
        ⟨(entities_pass now1 ⟨st.entities, [], [], [], fresh1⟩
          R.entities).ents, [], [], [], fresh2⟩ R.entities).ents
      (entities_pass now2
        ⟨(entities_pass now1 ⟨st.entities, [], [], [], fresh1⟩
          R.entities).ents, [], [], [], fresh2⟩ R.entities).idMap
      ⟨(relations_pass now1
          (entities_pass now1 ⟨st.entities, [], [], [], fresh1⟩
            R.entities).ents
          (entities_pass now1 ⟨st.entities, [], [], [], fresh1⟩
            R.entities).idMap
          ⟨st.relations, [],
            (entities_pass now1 ⟨st.entities, [], [], [], fresh1⟩
              R.entities).fresh⟩ R.relations).rels, [],
        (entities_pass now2
          ⟨(entities_pass now1 ⟨st.entities, [], [], [], fresh1⟩
            R.entities).ents, [], [], [], fresh2⟩
          R.entities).fresh⟩ R.relations).addedRels = []
    rw [hentseq, hmapeq, hnoop]
  · show (entities_pass now2
      ⟨(entities_pass now1 ⟨st.entities, [], [], [], fresh1⟩
        R.entities).ents, [], [], [], fresh2⟩ R.entities).ents =
      (entities_pass now1 ⟨st.entities, [], [], [], fresh1⟩
        R.entities).ents
    exact hentseq
  · show (relations_pass now2
      (entities_pass now2
        ⟨(entities_pass now1 ⟨st.entities, [], [], [], fresh1⟩
          R.entities).ents, [], [], [], fresh2⟩ R.entities).ents
      (entities_pass now2
        ⟨(entities_pass now1 ⟨st.entities, [], [], [], fresh1⟩
          R.entities).ents, [], [], [], fresh2⟩ R.entities).idMap
      ⟨(relations_pass now1
          (entities_pass now1 ⟨st.entities, [], [], [], fresh1⟩
            R.entities).ents
          (entities_pass now1 ⟨st.entities, [], [], [], fresh1⟩
            R.entities).idMap
          ⟨st.relations, [],
            (entities_pass now1 ⟨st.entities, [], [], [], fresh1⟩
              R.entities).fresh⟩ R.relations).rels, [],
        (entities_pass now2
          ⟨(entities_pass now1 ⟨st.entities, [], [], [], fresh1⟩
            R.entities).ents, [], [], [], fresh2⟩
          R.entities).fresh⟩ R.relations).rels =
      (relations_pass now1
        (entities_pass now1 ⟨st.entities, [], [], [], fresh1⟩
          R.entities).ents
        (entities_pass now1 ⟨st.entities, [], [], [], fresh1⟩
          R.entities).idMap
        ⟨st.relations, [],
          (entities_pass now1 ⟨st.entities, [], [], [], fresh1⟩
            R.entities).fresh⟩ R.relations).rels
    · rw [hentseq, hmapeq, hnoop]
  · rfl

/-- Witness for C3: a concrete all-new first application (single entity
`abc` on the empty graph) after which the second application of the same
extraction adds nothing, updates nothing and only bumps the version. -/
theorem C3_reapply_inert_witness :
    (apply_extraction 2 5 (apply_extraction 1 0 (create_empty_state 0)
        ⟨[⟨"e1".toList, "abc".toList, .PERSON⟩], []⟩).state
        ⟨[⟨"e1".toList, "abc".toList, .PERSON⟩],
          []⟩).delta.addedEntities = [] ∧
    (apply_extraction 2 5 (apply_extraction 1 0 (create_empty_state 0)
        ⟨[⟨"e1".toList, "abc".toList, .PERSON⟩], []⟩).state
        ⟨[⟨"e1".toList, "abc".toList, .PERSON⟩],
          []⟩).delta.updatedEntities = [] ∧
    (apply_extraction 2 5 (apply_extraction 1 0 (create_empty_state 0)
        ⟨[⟨"e1".toList, "abc".toList, .PERSON⟩], []⟩).state
        ⟨[⟨"e1".toList, "abc".toList, .PERSON⟩],
          []⟩).delta.addedRelations = [] ∧
    (apply_extraction 2 5 (apply_extraction 1 0 (create_empty_state 0)
        ⟨[⟨"e1".toList, "abc".toList, .PERSON⟩], []⟩).state
        ⟨[⟨"e1".toList, "abc".toList, .PERSON⟩],
          []⟩).state.entities =
      (apply_extraction 1 0 (create_empty_state 0)
        ⟨[⟨"e1".toList, "abc".toList, .PERSON⟩], []⟩).state.entities ∧
    (apply_extraction 2 5 (apply_extraction 1 0 (create_empty_state 0)
        ⟨[⟨"e1".toList, "abc".toList, .PERSON⟩], []⟩).state
        ⟨[⟨"e1".toList, "abc".toList, .PERSON⟩],
          []⟩).state.relations =
      (apply_extraction 1 0 (create_empty_state 0)
        ⟨[⟨"e1".toList, "abc".toList, .PERSON⟩], []⟩).state.relations ∧
    (apply_extraction 2 5 (apply_extraction 1 0 (create_empty_state 0)
        ⟨[⟨"e1".toList, "abc".toList, .PERSON⟩], []⟩).state
        ⟨[⟨"e1".toList, "abc".toList, .PERSON⟩],
          []⟩).state.version =
      (apply_extraction 1 0 (create_empty_state 0)
        ⟨[⟨"e1".toList, "abc".toList, .PERSON⟩], []⟩).state.version + 1 :=
  C3_reapply_inert_in_all_new_case 1 2 0 5 (create_empty_state 0)
    ⟨[⟨"e1".toList, "abc".toList, .PERSON⟩], []⟩
    (by decide) (by decide)

set_option maxRecDepth 100000 in
/-- C3 counterexample: re-applying the same extraction is not a no-op in
general. (a) An entity whose label normalises to empty (`!`) is added
again by the second application, because `_find_similar_entity` bails out
before rule (a) can match it. (b) Even with non-empty normalisations the
second application can mint a fresh entity: pass-1 label updates move an
existing entity out of reach of the chain `abcdefghij` /
`abcdefghijkl` / `abcQRfghijkl!`, so the state after the second
application is not the state after the first up to timestamps. -/
theorem C3_reapply_adds_entities_again :
    (apply_extraction 2
      (apply_extraction 1 0 (create_empty_state 0)
        ⟨[⟨"e1".toList, "!".toList, .PERSON⟩], []⟩).fresh
      (apply_extraction 1 0 (create_empty_state 0)
        ⟨[⟨"e1".toList, "!".toList, .PERSON⟩], []⟩).state
      ⟨[⟨"e1".toList, "!".toList, .PERSON⟩],
        []⟩).delta.addedEntities.length = 1 ∧
    (apply_extraction 2
      (apply_extraction 1 0 (create_empty_state 0)
        ⟨[⟨"e1".toList, "abcdefghij".toList, .PERSON⟩,
          ⟨"e2".toList, "abcdefghijkl".toList, .PERSON⟩,
          ⟨"e3".toList, "abcQRfghijkl!".toList, .PERSON⟩], []⟩).fresh
      (apply_extraction 1 0 (create_empty_state 0)
        ⟨[⟨"e1".toList, "abcdefghij".toList, .PERSON⟩,
          ⟨"e2".toList, "abcdefghijkl".toList, .PERSON⟩,
          ⟨"e3".toList, "abcQRfghijkl!".toList, .PERSON⟩], []⟩).state
      ⟨[⟨"e1".toList, "abcdefghij".toList, .PERSON⟩,
        ⟨"e2".toList, "abcdefghijkl".toList, .PERSON⟩,
        ⟨"e3".toList, "abcQRfghijkl!".toList, .PERSON⟩],
        []⟩).delta.addedEntities.length = 1 := by
  decide

end KG
